import Mathlib

/-!
Verification of the ticket store and validation layer of `ai-trackdown-pytools`.

The definitions below are a shallow embedding of
`src/ai_trackdown_pytools/core/task.py` (the `TaskModel` pydantic model, the
`Task` wrapper and the `TaskManager` CRUD layer), together with models of the
validation components (frontmatter parsing, id-format validation, status
workflow validation, relationship validation, schema validation) whose source
files (`utils/validation.py`, `utils/frontmatter.py`, `core/models.py`) are not
part of the source tree; those are modelled from the specification and are
marked as such in their doc comments.

Python dynamic values are embedded as the inductive `PyValue`; Python
`datetime` objects carry an order-faithful mixed-radix encoding of their
components as a `Nat`.  Fallible Python code is embedded in `Except`/`Option`.
-/

namespace AiTrackdown

/-- Embedding of the Python value universe used by the ticket code: `None`,
booleans, ints, strings, `datetime` objects (mixed-radix component encoding),
lists and string-keyed dicts. -/
inductive PyValue where
  | pnone
  | pbool (b : Bool)
  | pint (n : Int)
  | pstr (s : String)
  | pdt (t : Nat)
  | plist (xs : List PyValue)
  | pdict (xs : List (String × PyValue))

open PyValue

/-- The Python exception kinds raised by the embedded code paths. -/
inductive PyErr where
  | attributeError
  | valueError
  | typeError
deriving DecidableEq, Repr

/-- Python truthiness for the embedded values (`if value:`). -/
def pyTruthy : PyValue → Bool
  | pnone => false
  | pbool b => b
  | pint n => n != 0
  | pstr s => s ≠ ""
  | pdt _ => true
  | plist xs => !xs.isEmpty
  | pdict xs => !xs.isEmpty

/-- Mixed-radix encoding of a `datetime`s components; strictly monotone in the
lexicographic component order, so `Nat` comparison of codes agrees with Python
`datetime` comparison. -/
def encodeDT (y mo d h mi s : Nat) : Nat :=
  ((((y * 13 + mo) * 32 + d) * 24 + h) * 60 + mi) * 60 + s

/-- Digit test for the ASCII digits. -/
def isDigitChar (c : Char) : Bool :=
  ('0').toNat ≤ c.toNat && c.toNat ≤ ('9').toNat

def digitVal (c : Char) : Nat := c.toNat - ('0').toNat

/-- Left-pad a numeral with zeros to width `w` (Python `format(n, "0Nd")`). -/
def padNum (w n : Nat) : String :=
  let s := toString n
  String.mk (List.replicate (w - s.length) '0') ++ s

/-- `datetime.isoformat()` on the component encoding. -/
def isoFormat (t : Nat) : String :=
  let s := t % 60
  let r1 := t / 60
  let mi := r1 % 60
  let r2 := r1 / 60
  let h := r2 % 24
  let r3 := r2 / 24
  let d := r3 % 32
  let r4 := r3 / 32
  let mo := r4 % 13
  let y := r4 / 13
  padNum 4 y ++ "-" ++ padNum 2 mo ++ "-" ++ padNum 2 d ++ "T" ++
    padNum 2 h ++ ":" ++ padNum 2 mi ++ ":" ++ padNum 2 s

/-- `datetime.fromisoformat` on the `YYYY-MM-DDTHH:MM:SS` shape (the shape the
code itself writes); returns `none` (a raised `ValueError`) on anything else. -/
def isoParse (s : String) : Option Nat :=
  match s.toList with
  | [y1, y2, y3, y4, '-', m1, m2, '-', d1, d2, 'T', h1, h2, ':', n1, n2, ':', s1, s2] =>
    if (isDigitChar y1 && isDigitChar y2 && isDigitChar y3 && isDigitChar y4 &&
        isDigitChar m1 && isDigitChar m2 && isDigitChar d1 && isDigitChar d2 &&
        isDigitChar h1 && isDigitChar h2 && isDigitChar n1 && isDigitChar n2 &&
        isDigitChar s1 && isDigitChar s2) then
      let y := ((digitVal y1 * 10 + digitVal y2) * 10 + digitVal y3) * 10 + digitVal y4
      let mo := digitVal m1 * 10 + digitVal m2
      let d := digitVal d1 * 10 + digitVal d2
      let h := digitVal h1 * 10 + digitVal h2
      let mi := digitVal n1 * 10 + digitVal n2
      let se := digitVal s1 * 10 + digitVal s2
      if 1 ≤ mo && mo ≤ 12 && 1 ≤ d && d ≤ 31 && h ≤ 23 && mi ≤ 59 && se ≤ 59 then
        some (encodeDT y mo d h mi se)
      else none
    else none
  | _ => none

/-- Python `\s` (whitespace class of the `re` module). -/
def isPySpace (c : Char) : Bool :=
  c = ' ' || c = '\t' || c = '\n' || c = '\x0d' || c = Char.ofNat 11 || c = Char.ofNat 12

/-- Association-list update with last-write-wins, preserving first-write key
order (PyYAML duplicate-key behaviour and Python dict update). -/
def upsertKey (m : List (String × PyValue)) (k : String) (v : PyValue) :
    List (String × PyValue) :=
  match m with
  | [] => [(k, v)]
  | (k0, v0) :: rest =>
    if k0 = k then (k0, v) :: rest else (k0, v0) :: upsertKey rest k v

/-- First-match association lookup (Python dict access on the embedded dict). -/
def lookupKey (m : List (String × PyValue)) (k : String) : Option PyValue :=
  match m with
  | [] => none
  | (k0, v0) :: rest => if k0 = k then some v0 else lookupKey rest k

/-- `dict.get(k, d)`. -/
def lookupKeyD (m : List (String × PyValue)) (k : String) (d : PyValue) : PyValue :=
  (lookupKey m k).getD d

/-- Numeric value of an all-digit character run. -/
def natFromDigits (cs : List Char) : Nat :=
  cs.foldl (fun a c => a * 10 + digitVal c) 0

/-- Does the character list contain the given character pair in sequence? -/
def containsPair (a b : Char) : List Char → Bool
  | [] => false
  | [_] => false
  | c :: d :: rest => (c = a && d = b) || containsPair a b (d :: rest)

/-- Is `needle` a prefix of `hay`? -/
def listIsPfxOf : List Char → List Char → Bool
  | [], _ => true
  | _ :: _, [] => false
  | c :: cr, d :: dr => c = d && listIsPfxOf cr dr

/-- Does `needle` occur as a contiguous run inside `hay`? -/
def containsSeq (needle : List Char) : List Char → Bool
  | [] => listIsPfxOf needle []
  | c :: rest => listIsPfxOf needle (c :: rest) || containsSeq needle rest

/-- Split a character list at newline characters. -/
def splitNl : List Char → List (List Char)
  | [] => [[]]
  | c :: rest =>
    let ls := splitNl rest
    if c = '\n' then [] :: ls
    else
      match ls with
      | [] => [[c]]
      | l :: ls2 => (c :: l) :: ls2

/-- Split a character list at the first dash, when one occurs. -/
def splitFirstDash (cs : List Char) : Option (List Char × List Char) :=
  match cs with
  | [] => none
  | c :: rest =>
    if c = '-' then some ([], rest)
    else
      match splitFirstDash rest with
      | none => none
      | some (a, b) => some (c :: a, b)

/-- One plain YAML scalar, as `yaml.safe_load` resolves it inside the subset of
YAML that the ticket code reads and writes: `null`/empty resolves to `None`,
booleans, integers, ISO timestamps resolve to `datetime` objects (the YAML 1.1
timestamp tag), quoted text to the quoted string, anything else to a string. -/
def yamlScalar (s : String) : PyValue :=
  if s = "" || s = "null" || s = "~" then pnone
  else if s = "true" then pbool true
  else if s = "false" then pbool false
  else if s.toList ≠ [] && s.toList.all isDigitChar then pint (natFromDigits s.toList)
  else
    match isoParse s with
    | some t => pdt t
    | none =>
      let cs := s.toList
      if cs.length ≥ 2 && cs.head? = some '\x27' && cs.getLast? = some '\x27' then
        pstr (String.mk (cs.drop 1 |>.dropLast))
      else if cs.length ≥ 2 && cs.head? = some '"' && cs.getLast? = some '"' then
        pstr (String.mk (cs.drop 1 |>.dropLast))
      else pstr s

/-- One `key: value` line of the flat-mapping YAML subset; fails (YAML parse
error) on indented lines, block-sequence lines, lines without a key separator
and plain values containing a `: ` sequence, which are the malformed shapes
relevant to this code base. -/
def yamlLine (cs : List Char) : Option (String × PyValue) :=
  match cs.head? with
  | none => none
  | some c0 =>
    if isPySpace c0 || c0 = '-' || c0 = '[' || c0 = ']' || c0 = ':' then none
    else
      let key := cs.takeWhile (· ≠ ':')
      let rest := cs.dropWhile (· ≠ ':')
      match rest with
      | [] => none
      | _ :: after =>
        match after with
        | [] => some (String.mk key, pnone)
        | ' ' :: valChars =>
          let v := valChars.dropWhile (· = ' ')
          if containsPair ':' ' ' v then none
          else some (String.mk key, yamlScalar (String.mk v))
        | _ => none

/-- `yaml.safe_load` on the flat-mapping subset: every non-blank line must be a
well-formed `key: value` line; duplicate keys resolve last-write-wins.  Returns
`none` exactly when PyYAML would raise `YAMLError` on such input. -/
def yamlLoad (text : String) : Option (List (String × PyValue)) :=
  let lines := (splitNl text.toList).filter fun l => (l.all isPySpace) = false
  lines.foldl
    (fun acc line =>
      match acc with
      | none => none
      | some m =>
        match yamlLine line with
        | none => none
        | some (k, v) => some (upsertKey m k v))
    (some [])

/-- Render one scalar the way `yaml.dump` does inside the written subset;
strings that would re-resolve to a non-string (timestamps, numerals, null,
booleans) are single-quoted. -/
def yamlDumpScalar : PyValue → String
  | pnone => "null"
  | pbool b => if b then "true" else "false"
  | pint n => toString n
  | pdt t => isoFormat t
  | pstr s =>
    match yamlScalar s with
    | pstr _ => if s = "" then "\x27\x27" else s
    | _ => "\x27" ++ s ++ "\x27"
  | plist _ => ""
  | pdict _ => ""

/-- `yaml.dump(frontmatter, default_flow_style=False)`: keys sorted (the PyYAML
default), block-style sequences, flat scalars per `yamlDumpScalar`. -/
def yamlDump (m : List (String × PyValue)) : String :=
  let sorted := m.mergeSort fun a b => a.1 ≤ b.1
  sorted.foldl
    (fun acc kv =>
      acc ++
        match kv.2 with
        | plist [] => kv.1 ++ ": []\n"
        | plist xs => kv.1 ++ ":\n" ++ String.join (xs.map fun x => "- " ++ yamlDumpScalar x ++ "\n")
        | pdict [] => kv.1 ++ ": []\n"
        | pdict xs => kv.1 ++ ":\n" ++ String.join (xs.map fun p => "  " ++ p.1 ++ ": " ++ yamlDumpScalar p.2 ++ "\n")
        | v => kv.1 ++ ": " ++ yamlDumpScalar v ++ "\n")
    ""

/-- Index of the last newline of a character list, if any. -/
def lastNewlineIdx (cs : List Char) : Option Nat :=
  ((cs.enum.filter fun p => p.2 = '\n').getLast?).map (·.1)

/-- Does a closing frontmatter delimiter (regex fragment of a newline, three
dashes, optional whitespace, then a newline) match at the head of `cs`? -/
def checkClose (cs : List Char) : Bool :=
  match cs with
  | '\n' :: '-' :: '-' :: '-' :: r => (r.takeWhile isPySpace).contains '\n'
  | _ => false

/-- Position of the earliest closing delimiter (the non-greedy `(.*?)`). -/
def findCloseIdx : List Char → Option Nat
  | [] => none
  | c :: rest => if checkClose (c :: rest) then some 0 else (findCloseIdx rest).map (· + 1)

/-- `Task._extract_frontmatter` and `TaskManager._extract_frontmatter` (the two
are identical): match a leading delimited block against the anchored pattern of
three dashes, optional whitespace and a newline, a non-greedy body, then a
closing delimiter line, and run `yaml.safe_load` on the body; `None` when the
pattern is absent or the YAML raises. -/
def extractFrontmatter (content : String) : Option (List (String × PyValue)) :=
  match content.toList with
  | '-' :: '-' :: '-' :: rest =>
    let run := rest.takeWhile isPySpace
    match lastNewlineIdx run with
    | none => none
    | some i =>
      let body := rest.drop (i + 1)
      match findCloseIdx body with
      | none => none
      | some j => yamlLoad (String.mk (body.take j))
  | _ => none

/-- `TaskModel` of `core/task.py`: a pydantic model whose fields hold Python
values; pydantic type discipline is enforced by `taskModelMk` (construction),
not by the record type, since plain attribute assignment is unvalidated. -/
structure TaskModel where
  id : PyValue
  title : PyValue
  description : PyValue
  status : PyValue
  priority : PyValue
  assignees : PyValue
  tags : PyValue
  created_at : PyValue
  updated_at : PyValue
  due_date : PyValue
  estimated_hours : PyValue
  actual_hours : PyValue
  dependencies : PyValue
  parent : PyValue
  labels : PyValue
  metadata : PyValue

/-- The declared field names of `TaskModel`, in declaration order. -/
def taskFieldNames : List String :=
  ["id", "title", "description", "status", "priority", "assignees", "tags",
   "created_at", "updated_at", "due_date", "estimated_hours", "actual_hours",
   "dependencies", "parent", "labels", "metadata"]

/-- Concrete non-field attributes of a pydantic `BaseModel` instance: the
deprecated v1-style API, the v2 `model_*` methods and properties, and the
model's own serializer method.  On each of these `hasattr` is true and
assignment raises `ValueError`.  The full attribute surface also holds dunder
and private names and varies with the pydantic version, so the update
embedding below abstracts the surface as a predicate; this list instantiates
it on concrete runs. -/
def taskMethodNames : List String :=
  ["dict", "json", "copy", "parse_obj", "parse_raw", "parse_file", "from_orm",
   "construct", "schema", "schema_json", "validate", "update_forward_refs",
   "model_dump", "model_dump_json", "model_copy", "model_validate",
   "model_validate_json", "model_validate_strings", "model_construct",
   "model_json_schema", "model_rebuild", "model_post_init",
   "model_parametrized_name", "model_extra", "model_fields_set",
   "model_fields", "model_computed_fields", "model_config",
   "serialize_datetime"]

/-- Reified field keys of `TaskModel` (the entries of pydantic
`model_fields`). -/
inductive FKey where
  | kid | ktitle | kdescription | kstatus | kpriority | kassignees | ktags
  | kcreated | kupdated | kdue | kest | kact | kdeps | kparent | klabels | kmeta
deriving DecidableEq, Repr

/-- Field-name resolution table, in declaration order. -/
def fieldTable : List (String × FKey) :=
  [("id", FKey.kid), ("title", FKey.ktitle), ("description", FKey.kdescription),
   ("status", FKey.kstatus), ("priority", FKey.kpriority),
   ("assignees", FKey.kassignees), ("tags", FKey.ktags),
   ("created_at", FKey.kcreated), ("updated_at", FKey.kupdated),
   ("due_date", FKey.kdue), ("estimated_hours", FKey.kest),
   ("actual_hours", FKey.kact), ("dependencies", FKey.kdeps),
   ("parent", FKey.kparent), ("labels", FKey.klabels), ("metadata", FKey.kmeta)]

/-- Resolve an attribute name to a declared field, if it is one. -/
def decodeField (k : String) : Option FKey :=
  (fieldTable.find? fun p => p.1 = k).map (fun p => p.2)

/-- Read of a declared field. -/
def getF (t : TaskModel) : FKey → PyValue
  | FKey.kid => t.id
  | FKey.ktitle => t.title
  | FKey.kdescription => t.description
  | FKey.kstatus => t.status
  | FKey.kpriority => t.priority
  | FKey.kassignees => t.assignees
  | FKey.ktags => t.tags
  | FKey.kcreated => t.created_at
  | FKey.kupdated => t.updated_at
  | FKey.kdue => t.due_date
  | FKey.kest => t.estimated_hours
  | FKey.kact => t.actual_hours
  | FKey.kdeps => t.dependencies
  | FKey.kparent => t.parent
  | FKey.klabels => t.labels
  | FKey.kmeta => t.metadata

/-- Write of a declared field. -/
def setF (t : TaskModel) (fk : FKey) (v : PyValue) : TaskModel :=
  match fk with
  | FKey.kid => { t with id := v }
  | FKey.ktitle => { t with title := v }
  | FKey.kdescription => { t with description := v }
  | FKey.kstatus => { t with status := v }
  | FKey.kpriority => { t with priority := v }
  | FKey.kassignees => { t with assignees := v }
  | FKey.ktags => { t with tags := v }
  | FKey.kcreated => { t with created_at := v }
  | FKey.kupdated => { t with updated_at := v }
  | FKey.kdue => { t with due_date := v }
  | FKey.kest => { t with estimated_hours := v }
  | FKey.kact => { t with actual_hours := v }
  | FKey.kdeps => { t with dependencies := v }
  | FKey.kparent => { t with parent := v }
  | FKey.klabels => { t with labels := v }
  | FKey.kmeta => { t with metadata := v }

/-- Attribute read by name (`getattr` restricted to the declared fields). -/
def getField (t : TaskModel) (k : String) : Option PyValue :=
  (decodeField k).map (getF t)

/-- Unvalidated attribute write by name (`setattr` on a declared field with
`validate_assignment` off, the pydantic default); identity on non-fields. -/
def setField (t : TaskModel) (k : String) (v : PyValue) : TaskModel :=
  match decodeField k with
  | some fk => setF t fk v
  | none => t

def isPStr : PyValue → Bool
  | pstr _ => true
  | _ => false

/-- Is a string acceptable to a pydantic `float` field in lax mode? -/
def isNumStr (s : String) : Bool :=
  let cs := (if s.toList.head? = some '-' then s.toList.drop 1 else s.toList)
  let parts := cs.splitOn '.'
  (parts.length = 1 || parts.length = 2) &&
    parts.all fun p => !p.isEmpty && p.all isDigitChar

/-- Required `str` field. -/
def vStr : Option PyValue → Option PyValue
  | some (pstr s) => some (pstr s)
  | _ => none

/-- `str` field with a default. -/
def vStrD (d : String) : Option PyValue → Option PyValue
  | none => some (pstr d)
  | some (pstr s) => some (pstr s)
  | _ => none

/-- Required `datetime` field; pydantic lax mode also accepts an ISO string. -/
def vDT : Option PyValue → Option PyValue
  | some (pdt t) => some (pdt t)
  | some (pstr s) => (isoParse s).map pdt
  | _ => none

/-- `Optional[datetime]` field defaulting to `None`. -/
def vOptDT : Option PyValue → Option PyValue
  | none => some pnone
  | some pnone => some pnone
  | some (pdt t) => some (pdt t)
  | some (pstr s) => (isoParse s).map pdt
  | _ => none

/-- `List[str]` field defaulting to `[]`. -/
def vListStr : Option PyValue → Option PyValue
  | none => some (plist [])
  | some (plist xs) => if xs.all isPStr then some (plist xs) else none
  | _ => none

/-- `Optional[str]` field defaulting to `None`. -/
def vOptStr : Option PyValue → Option PyValue
  | none => some pnone
  | some pnone => some pnone
  | some (pstr s) => some (pstr s)
  | _ => none

/-- `Optional[float]` field defaulting to `None`; lax mode accepts ints and
numeric strings. -/
def vOptNum : Option PyValue → Option PyValue
  | none => some pnone
  | some pnone => some pnone
  | some (pint n) => some (pint n)
  | some (pstr s) => if isNumStr s then some (pstr s) else none
  | _ => none

/-- `Dict[str, Any]` field defaulting to the empty dict. -/
def vDict : Option PyValue → Option PyValue
  | none => some (pdict [])
  | some (pdict xs) => some (pdict xs)
  | _ => none

/-- `TaskModel(**frontmatter)`: pydantic construction-time validation over the
embedded field mapping; `none` is a raised `ValidationError`.  Unknown keys are
ignored (the `ConfigDict()` default of `extra="ignore"`). -/
def taskModelMk (fm : List (String × PyValue)) : Option TaskModel :=
  (vStr (lookupKey fm "id")).bind fun idv =>
  (vStr (lookupKey fm "title")).bind fun titlev =>
  (vStrD "" (lookupKey fm "description")).bind fun descriptionv =>
  (vStrD "open" (lookupKey fm "status")).bind fun statusv =>
  (vStrD "medium" (lookupKey fm "priority")).bind fun priorityv =>
  (vListStr (lookupKey fm "assignees")).bind fun assigneesv =>
  (vListStr (lookupKey fm "tags")).bind fun tagsv =>
  (vDT (lookupKey fm "created_at")).bind fun createdv =>
  (vDT (lookupKey fm "updated_at")).bind fun updatedv =>
  (vOptDT (lookupKey fm "due_date")).bind fun duev =>
  (vOptNum (lookupKey fm "estimated_hours")).bind fun estv =>
  (vOptNum (lookupKey fm "actual_hours")).bind fun actv =>
  (vListStr (lookupKey fm "dependencies")).bind fun depsv =>
  (vOptStr (lookupKey fm "parent")).bind fun parentv =>
  (vListStr (lookupKey fm "labels")).bind fun labelsv =>
  (vDict (lookupKey fm "metadata")).bind fun metav =>
  some ⟨idv, titlev, descriptionv, statusv, priorityv, assigneesv, tagsv,
    createdv, updatedv, duev, estv, actv, depsv, parentv, labelsv, metav⟩

/-- `datetime.isoformat` as a Python attribute call: raises `AttributeError`
when the receiver is not a `datetime` object. -/
def pyIsoformat : PyValue → Except PyErr String
  | pdt t => Except.ok (isoFormat t)
  | _ => Except.error PyErr.attributeError

/-- The `serialize_datetime` field serializer of `TaskModel`:
`value.isoformat() if value else None`. -/
def serializeDatetime (v : PyValue) : Except PyErr PyValue :=
  if pyTruthy v then (pyIsoformat v).map pstr else Except.ok pnone

/-- `TaskModel.dict()` (pydantic `model_dump`): field-declaration order, with
the `serialize_datetime` field serializer applied to `created_at`,
`updated_at` and `due_date` (a `field_serializer` defaults to
`when_used="always"`, so it runs in `model_dump` as well as in JSON mode). -/
def taskModelDict (t : TaskModel) : Except PyErr (List (String × PyValue)) := do
  let ca ← serializeDatetime t.created_at
  let ua ← serializeDatetime t.updated_at
  let dd ← serializeDatetime t.due_date
  Except.ok
    [("id", t.id), ("title", t.title), ("description", t.description),
     ("status", t.status), ("priority", t.priority), ("assignees", t.assignees),
     ("tags", t.tags), ("created_at", ca), ("updated_at", ua), ("due_date", dd),
     ("estimated_hours", t.estimated_hours), ("actual_hours", t.actual_hours),
     ("dependencies", t.dependencies), ("parent", t.parent),
     ("labels", t.labels), ("metadata", t.metadata)]

/-- Python `str()` rendering for the f-string pieces of the saved markdown. -/
def pyStrOf : PyValue → String
  | pnone => "None"
  | pbool b => if b then "True" else "False"
  | pint n => toString n
  | pstr s => s
  | pdt t => isoFormat t
  | plist _ => "[...]"
  | pdict _ => "..."

/-- `", ".join(xs)`: `TypeError` unless every element is a string. -/
def joinComma : PyValue → Except PyErr String
  | plist xs =>
    if xs.all isPStr then
      Except.ok (String.intercalate ", " (xs.map pyStrOf))
    else Except.error PyErr.typeError
  | _ => Except.error PyErr.typeError

/-- `.strftime("%Y-%m-%d %H:%M:%S")` as an attribute call on a value. -/
def pyStrftime : PyValue → Except PyErr String
  | pdt t =>
    let s := t % 60
    let r1 := t / 60
    let mi := r1 % 60
    let r2 := r1 / 60
    let h := r2 % 24
    let r3 := r2 / 24
    let d := r3 % 32
    let r4 := r3 / 32
    let mo := r4 % 13
    let y := r4 / 13
    Except.ok (padNum 4 y ++ "-" ++ padNum 2 mo ++ "-" ++ padNum 2 d ++ " " ++
      padNum 2 h ++ ":" ++ padNum 2 mi ++ ":" ++ padNum 2 s)
  | _ => Except.error PyErr.attributeError

/-- `TaskManager._save_task_file`, with the file write abstracted into the
returned content: dump the model with `dict()`, replace the three timestamp
entries by `.isoformat()` attribute calls, then build the markdown document
around `yaml.dump` of the mapping. -/
def saveTaskFile (t : TaskModel) : Except PyErr String := do
  let fm ← taskModelDict t
  let caStr ← pyIsoformat (lookupKeyD fm "created_at" pnone)
  let fm := upsertKey fm "created_at" (pstr caStr)
  let uaStr ← pyIsoformat (lookupKeyD fm "updated_at" pnone)
  let fm := upsertKey fm "updated_at" (pstr uaStr)
  let fm ←
    if pyTruthy (lookupKeyD fm "due_date" pnone) then do
      let ddStr ← pyIsoformat (lookupKeyD fm "due_date" pnone)
      Except.ok (upsertKey fm "due_date" (pstr ddStr))
    else Except.ok fm
  let assigneesStr ← if pyTruthy t.assignees then joinComma t.assignees else Except.ok "None"
  let tagsStr ← if pyTruthy t.tags then joinComma t.tags else Except.ok "None"
  let createdStr ← pyStrftime t.created_at
  let updatedStr ← pyStrftime t.updated_at
  let descStr := if pyTruthy t.description then pyStrOf t.description else "No description provided."
  Except.ok ("---\n" ++ yamlDump fm ++ "---\n\n# " ++ pyStrOf t.title ++
    "\n\n## Description\n" ++ descStr ++
    "\n\n## Details\n- **Status**: " ++ pyStrOf t.status ++
    "\n- **Priority**: " ++ pyStrOf t.priority ++
    "\n- **Assignees**: " ++ assigneesStr ++
    "\n- **Tags**: " ++ tagsStr ++
    "\n- **Created**: " ++ createdStr ++
    "\n- **Updated**: " ++ updatedStr ++
    "\n\n## Tasks\n- [ ] Add task items here\n\n## Notes\n_Add any additional notes or context here._\n")

/-- The frontmatter post-processing of `Task.load` and
`TaskManager._load_task_file`: convert ISO strings back into `datetime`
objects for `created_at`, `updated_at` and (when truthy) `due_date`;
`datetime.fromisoformat` failure raises `ValueError`. -/
def convertTimestamps (fm : List (String × PyValue)) :
    Except PyErr (List (String × PyValue)) := do
  let step := fun (m : List (String × PyValue)) (k : String) =>
    match lookupKey m k with
    | some (pstr s) =>
      match isoParse s with
      | some t => Except.ok (upsertKey m k (pdt t))
      | none => Except.error PyErr.valueError
    | _ => Except.ok m
  let fm ← step fm "created_at"
  let fm ← step fm "updated_at"
  if pyTruthy (lookupKeyD fm "due_date" pnone) then step fm "due_date"
  else Except.ok fm

/-- `Task.load` with the file read abstracted into the content argument; every
failure inside the `try` block surfaces as a raised `TaskError`. -/
def taskLoadContent (content : String) : Except String TaskModel :=
  match extractFrontmatter content with
  | none => Except.error "Failed to parse task file"
  | some fm =>
    if pyTruthy (pdict fm) = false then Except.error "Failed to parse task file"
    else
      match convertTimestamps fm with
      | Except.error _ => Except.error "Failed to parse task file"
      | Except.ok fm2 =>
        match taskModelMk fm2 with
        | none => Except.error "Failed to parse task file"
        | some t => Except.ok t

/-- `TaskManager._load_task_file`: same pipeline as `Task.load` but every
failure is swallowed into `None`. -/
def loadTaskFile (content : String) : Option TaskModel :=
  match taskLoadContent content with
  | Except.ok t => some t
  | Except.error _ => none

/-- `Task.update(**kwargs)`: for each key with `hasattr(self.data, key)` set
the attribute (a declared field sets silently and without validation; a
non-field attribute such as a model method makes pydantic `__setattr__` raise
`ValueError`); keys that are no attribute at all are skipped; finally
`updated_at = datetime.now()`.  The non-field attribute surface of the model
object is large and pydantic-version-dependent, so it enters as the predicate
`isAttr` (true exactly on the names beyond the declared fields on which
`hasattr` is true); `taskMethodNames.contains` instantiates it on concrete
runs.  The kwargs loop is `applyKwargs`. -/
def applyKwargs (isAttr : String → Bool) (t : TaskModel) :
    List (String × PyValue) → Except PyErr TaskModel
  | [] => Except.ok t
  | kv :: rest =>
    match decodeField kv.1 with
    | some fk => applyKwargs isAttr (setF t fk kv.2) rest
    | none =>
      if isAttr kv.1 then Except.error PyErr.valueError
      else applyKwargs isAttr t rest

def taskUpdate (isAttr : String → Bool) (t : TaskModel)
    (kwargs : List (String × PyValue)) (now : Nat) :
    Except PyErr TaskModel :=
  (applyKwargs isAttr t kwargs).map fun t2 => { t2 with updated_at := pdt now }

/-- `TaskManager.create_task` (the model-construction part, with the generated
id and the clock passed in): all fields from `kwargs.get` with the source
defaults, both timestamps set to `now`; pydantic construction may raise. -/
def createTaskFm (kwargs : List (String × PyValue)) (now : Nat) (taskId : String) :
    List (String × PyValue) :=
  [("id", pstr taskId),
   ("title", lookupKeyD kwargs "title" (pstr "Untitled Task")),
   ("description", lookupKeyD kwargs "description" (pstr "")),
   ("status", lookupKeyD kwargs "status" (pstr "open")),
   ("priority", lookupKeyD kwargs "priority" (pstr "medium")),
   ("assignees", lookupKeyD kwargs "assignees" (plist [])),
   ("tags", lookupKeyD kwargs "tags" (plist [])),
   ("created_at", pdt now),
   ("updated_at", pdt now),
   ("due_date", lookupKeyD kwargs "due_date" pnone),
   ("estimated_hours", lookupKeyD kwargs "estimated_hours" pnone),
   ("actual_hours", lookupKeyD kwargs "actual_hours" pnone),
   ("dependencies", lookupKeyD kwargs "dependencies" (plist [])),
   ("parent", lookupKeyD kwargs "parent" pnone),
   ("labels", lookupKeyD kwargs "labels" (plist [])),
   ("metadata", lookupKeyD kwargs "metadata" (pdict []))]

def createTask (kwargs : List (String × PyValue)) (now : Nat) (taskId : String) :
    Except String TaskModel :=
  match taskModelMk (createTaskFm kwargs now taskId) with
  | some t => Except.ok t
  | none => Except.error "ValidationError"

/-- The default `tasks.id_format` of the configuration,
`"TSK-" + format(counter, "04d")`. -/
def formatTaskId (counter : Nat) : String := "TSK-" ++ padNum 4 counter

/-- `TaskManager._generate_task_id`: starting from the configured counter, take
the first formatted id whose stem matches no existing task file
(`_find_task_file` is a stem scan over the tasks directory, embedded as the
list of existing stems).  Fuel bounds the unrolled `while` loop. -/
def generateTaskId (fuel : Nat) (counter : Nat) (stems : List String) : Option String :=
  match fuel with
  | 0 => none
  | fuel + 1 =>
    let tid := formatTaskId counter
    if stems.contains tid then generateTaskId fuel (counter + 1) stems
    else some tid

/-- `TaskManager._get_task_file_path`: subdirectory from the lowercased id
piece before the first dash, file name `<id>.md`. -/
def getTaskFilePath (tasksDir taskId : String) : String :=
  let sub :=
    match splitFirstDash taskId.toList with
    | some (a, _) => String.mk (a.map Char.toLower)
    | none => "misc"
  tasksDir ++ "/" ++ sub ++ "/" ++ taskId ++ ".md"

/-- `Path.stem` of a file path: the part after the last slash, with the last
dot-suffix removed. -/
def fileStem (path : String) : String :=
  let base := (path.toList.reverse.takeWhile (· ≠ '/')).reverse
  if base.contains '.' then
    String.mk ((base.reverse.dropWhile (· ≠ '.')).drop 1).reverse
  else String.mk base

/-- Sort key of `list_tasks` (`t.created_at`; loaded models always carry a
`datetime` there). -/
def dtKey (t : TaskModel) : Nat :=
  match t.created_at with
  | pdt n => n
  | _ => 0

/-- `TaskManager.list_tasks` over the contents of the files found by the glob:
parse each file, silently dropping each file whose parse, YAML load or model
validation fails; apply the optional status/tag filters; sort newest first
(stable, as `list.sort(key=..., reverse=True)` is). -/
def listTasks (contents : List String) (statusF tagF : Option String) : List TaskModel :=
  let ts := contents.filterMap loadTaskFile
  let ts := ts.filter fun t =>
    (match statusF with
     | none => true
     | some st => match t.status with | pstr s => s = st | _ => false) &&
    (match tagF with
     | none => true
     | some tg =>
       match t.tags with
       | plist xs => xs.any fun x => match x with | pstr s => s = tg | _ => false
       | _ => false)
  ts.mergeSort fun a b => dtKey b ≤ dtKey a

/-- The uniform validator result: `valid`, ordered `errors`, ordered
`warnings`. -/
structure VRes where
  valid : Bool
  errors : List String
  warnings : List String

/-- Modelled from the spec: the canonical id-prefix table of the ID Format
Validator (`utils/validation.py` is not in the source tree); task maps to TSK,
epic to EP, issue to ISS, pr to PR, project to PROJ. -/
def canonicalPfx : String → Option String
  | "task" => some "TSK"
  | "epic" => some "EP"
  | "issue" => some "ISS"
  | "pr" => some "PR"
  | "project" => some "PROJ"
  | _ => none

/-- Piece of an id before the first dash (the whole id when there is none). -/
def idPfx (tid : String) : String :=
  match splitFirstDash tid.toList with
  | some (a, _) => String.mk a
  | none => tid

/-- Piece of an id after the first dash (empty when there is no dash). -/
def idSuffixPart (tid : String) : String :=
  match splitFirstDash tid.toList with
  | some (_, b) => String.mk b
  | none => ""

/-- Modelled from the spec: `validate_id_format(id, expected_type)` of the
missing `utils/validation.py`.  Splits the id on the first dash; errors when
the dash is absent, when the piece before it differs from the canonical
prefix of the expected type, or when the rest is not an all-digit run of at
least four digits; `valid` is the emptiness of the collected errors. -/
def validateIdFormat (tid ty : String) : VRes :=
  let errs :=
    match canonicalPfx ty with
    | none => ["Unknown ticket type: " ++ ty]
    | some p =>
      match splitFirstDash tid.toList with
      | none =>
        ["Ticket id " ++ tid ++ " has no type delimiter",
         "Ticket id " ++ tid ++ " must end in a number of at least 4 digits"]
      | some (a, b) =>
        (if String.mk a = p then []
         else ["Ticket id " ++ tid ++ " does not match expected type " ++ ty]) ++
        (if b.all isDigitChar && 4 ≤ b.length then []
         else ["Ticket id " ++ tid ++ " must end in a number of at least 4 digits"])
  ⟨errs.isEmpty, errs, []⟩

/-- Modelled from the spec: the per-type status transition graphs of the
Status Workflow Validator (`utils/frontmatter.py` is not in the source tree),
restricted to the edges the spec fixes; terminal states have no outgoing
edges. -/
def statusTransitions (ty fromSt : String) : List String :=
  match ty, fromSt with
  | "task", "open" => ["in_progress"]
  | "task", "in_progress" => ["completed"]
  | "task", "completed" => []
  | "pr", "draft" => ["ready_for_review"]
  | "pr", "approved" => ["merged"]
  | "pr", "merged" => []
  | "epic", "planning" => ["in_progress"]
  | "epic", "completed" => []
  | _, _ => []

/-- Modelled from the spec: `validate_status_transition(ticket_type, from,
to)`; a transition is valid exactly when it is an edge of the per-type graph,
and an illegal transition yields a single error naming it. -/
def validateStatusTransition (ty fromSt toSt : String) : VRes :=
  if (statusTransitions ty fromSt).contains toSt then ⟨true, [], []⟩
  else
    ⟨false,
     ["Illegal " ++ ty ++ " status transition: " ++ fromSt ++ " -> " ++ toSt],
     []⟩

/-- Status enum of the task type (the states of its workflow graph). -/
def taskStatusEnum : List String := ["open", "in_progress", "completed"]

/-- Priority enum shared by all ticket types. -/
def priorityEnum : List String := ["low", "medium", "high", "critical"]

/-- The registered schema type names. -/
def schemaTypes : List String := ["task", "issue", "epic", "pr", "project"]

/-- The known top-level fields of the base ticket schema. -/
def knownTicketFields : List String :=
  taskFieldNames ++ ["child_issues", "child_tasks", "related_prs", "closes_issues", "epics"]

/-- Is a value a well-formed timestamp for the schema (a date-time formatted
string or a datetime object)? -/
def tsValue : PyValue → Option Nat
  | pdt t => some t
  | pstr s => isoParse s
  | _ => none

/-- Modelled from the spec: `SchemaValidator.validate_ticket(fields, type)` of
the missing `utils/validation.py`.  Unknown type is a distinct fast error;
otherwise JSON-Schema style checks (required fields, types, enum membership,
`minLength` on the title, date-time format) are collected without
short-circuiting, then the semantic rules (no self-dependency, `updated_at`
at or after `created_at`); unknown top-level fields are warnings only, and
`valid` is the emptiness of the error list. -/
def validateTicket (fields : List (String × PyValue)) (ty : String) : VRes :=
  if (schemaTypes.contains ty) = false then
    ⟨false, ["No schema registered for ticket type: " ++ ty], []⟩
  else
    let reqErrs :=
      (["id", "title", "status", "priority", "created_at", "updated_at"].filter
        fun k => (lookupKey fields k).isNone).map
        fun k => "Missing required field: " ++ k
    let strFieldErrs :=
      (["id", "title", "description", "status", "priority"].filterMap fun k =>
        match lookupKey fields k with
        | some v => if isPStr v then none else some ("Field " ++ k ++ " must be a string")
        | none => none)
    let titleErrs :=
      match lookupKey fields "title" with
      | some (pstr "") => ["Field title violates minLength 1"]
      | _ => []
    let statusErrs :=
      match lookupKey fields "status" with
      | some (pstr s) =>
        if (ty = "task" → taskStatusEnum.contains s) then []
        else ["Field status value " ++ s ++ " is not a member of the status enum"]
      | _ => []
    let priorityErrs :=
      match lookupKey fields "priority" with
      | some (pstr s) =>
        if priorityEnum.contains s then []
        else ["Field priority value " ++ s ++ " is not a member of the priority enum"]
      | _ => []
    let tsFormatErrs :=
      (["created_at", "updated_at"].filterMap fun k =>
        match lookupKey fields k with
        | some v =>
          if (tsValue v).isSome then none
          else some ("Field " ++ k ++ " must be a date-time")
        | none => none)
    let depsList :=
      match lookupKey fields "dependencies" with
      | some (plist xs) => xs
      | _ => []
    let selfDepErrs :=
      match lookupKey fields "id" with
      | some (pstr i) =>
        if depsList.any (fun v => match v with | pstr s => s = i | _ => false) then
          ["Ticket " ++ i ++ " must not list its own id in dependencies"]
        else []
      | _ => []
    let tsOrderErrs :=
      match tsValue (lookupKeyD fields "created_at" pnone),
            tsValue (lookupKeyD fields "updated_at" pnone) with
      | some c, some u =>
        if u < c then ["Field updated_at must be at or after created_at"] else []
      | _, _ => []
    let warns :=
      (fields.map Prod.fst).filter (fun k => (knownTicketFields.contains k) = false)
        |>.map fun k => "Unknown field: " ++ k
    let errs := reqErrs ++ strFieldErrs ++ titleErrs ++ statusErrs ++ priorityErrs ++
      tsFormatErrs ++ selfDepErrs ++ tsOrderErrs
    ⟨errs.isEmpty, errs, warns⟩

/-- Modelled from the spec: a ticket-like mapping as seen by the Relationship
Validator — its id and its reference fields. -/
structure RTicket where
  rid : String
  parent : Option String := none
  dependencies : List String := []
  child_issues : List String := []
  child_tasks : List String := []
  related_prs : List String := []
  closes_issues : List String := []
  epics : List String := []

/-- Dependency targets of a node of the `dependencies` graph: the dependency
list of the first ticket carrying the id, and empty for a non-ticket id. -/
def depsOf (tickets : List RTicket) (v : String) : List String :=
  match tickets.find? (fun t => t.rid = v) with
  | some t => t.dependencies
  | none => []

/-- One edge of the `dependencies` graph. -/
def depEdge (tickets : List RTicket) (u w : String) : Prop :=
  w ∈ depsOf tickets u

/-- Error text for a detected back-edge: the full cycle path in traversal
order, from the in-progress target `w` along the visit stack back to `w`. -/
def cycleErrorText (v : String) (grey : List String) (w : String) : String :=
  let members := w :: ((v :: grey).takeWhile (· ≠ w)).reverse
  "Circular dependency detected: " ++ String.intercalate " -> " (members ++ [w])

/-- Edge loop of one visit of the depth-first cycle scan, over the visit
function for the remaining fuel: a done target is skipped, an in-progress
target is a back-edge reported with its cycle path, an unvisited target is
visited recursively. -/
def dfsEdgesF (visitF : String → List String → List String → Option (List String × List String)) :
    List String → String → List String → List String → List String →
    Option (List String × List String)
  | [], _, _, black, errs => some (black, errs)
  | w :: rest, v, grey, black, errs =>
    if black.contains w then dfsEdgesF visitF rest v grey black errs
    else if (v :: grey).contains w then
      dfsEdgesF visitF rest v grey black (errs ++ [cycleErrorText v grey w])
    else
      match visitF w (v :: grey) black with
      | none => none
      | some (bl2, er2) => dfsEdgesF visitF rest v grey bl2 (errs ++ er2)

/-- Modelled from the spec: the visit of one node in the depth-first cycle
scan with visit states unvisited / in-progress (`grey`, the stack) / done
(`black`); the node turns done after its edges; fuel exhaustion is `none`. -/
def dfsVisit (tickets : List RTicket) : Nat → String → List String → List String →
    Option (List String × List String)
  | 0, _, _, _ => none
  | fuel + 1, v, grey, black =>
    match dfsEdgesF (fun w g b => dfsVisit tickets fuel w g b)
        (depsOf tickets v) v grey black [] with
    | none => none
    | some (bl, er) => some (v :: bl, er)

/-- The edge loop at a given fuel level. -/
def dfsEdges (tickets : List RTicket) (fuel : Nat) (ws : List String) (v : String)
    (grey black errs : List String) : Option (List String × List String) :=
  dfsEdgesF (fun w g b => dfsVisit tickets fuel w g b) ws v grey black errs

/-- Top loop of the cycle scan: one visit per still-unvisited ticket id. -/
def dfsTop (tickets : List RTicket) (fuel : Nat) :
    List String → List String → List String → Option (List String × List String)
  | [], black, errs => some (black, errs)
  | t :: rest, black, errs =>
    if black.contains t then dfsTop tickets fuel rest black errs
    else
      match dfsVisit tickets fuel t [] black with
      | none => none
      | some (bl, er) => dfsTop tickets fuel rest bl (errs ++ er)

/-- Node universe of the dependency graph: every ticket id and every
dependency target. -/
def depUniverse (tickets : List RTicket) : List String :=
  tickets.map (fun t => t.rid) ++ tickets.flatMap (fun t => t.dependencies)

/-- The reference fields of a ticket, paired with their names. -/
def refFields (t : RTicket) : List (String × List String) :=
  [("parent", t.parent.toList), ("dependencies", t.dependencies),
   ("child_issues", t.child_issues), ("child_tasks", t.child_tasks),
   ("related_prs", t.related_prs), ("closes_issues", t.closes_issues),
   ("epics", t.epics)]

/-- Step 1 of the relationship validator: duplicate-id errors. -/
def dupErrsOf (tickets : List RTicket) : List String :=
  (((tickets.map fun t => t.rid).filter
      fun i => 2 ≤ (tickets.map fun t => t.rid).count i).dedup).map
    fun i => "Duplicate ticket id: " ++ i

/-- Step 2 of the relationship validator: dangling-reference errors, one per
broken reference, naming the source ticket, the field and the target. -/
def danglingErrsOf (tickets : List RTicket) : List String :=
  tickets.flatMap fun t =>
    (refFields t).flatMap fun fr =>
      (fr.2.filter fun r => ((tickets.map fun t2 => t2.rid).contains r) = false).map fun r =>
        "Ticket " ++ t.rid ++ " field " ++ fr.1 ++ " references missing ticket " ++ r

/-- Step 3 of the relationship validator: the depth-first cycle scan over all
ticket ids, with fuel one past the universe size. -/
def cycleScan (tickets : List RTicket) : Option (List String × List String) :=
  dfsTop tickets ((depUniverse tickets).length + 1) (tickets.map fun t => t.rid) [] []

/-- Modelled from the spec: `validate_relationships(tickets)` of the missing
`utils/validation.py`.  Duplicate ids are errors; every reference field target
must exist in the id index (an error names the source, the field and the
target); cycle detection runs by depth-first search over the `dependencies`
edges only, reporting each back-edge with its cycle path; `valid` is the
emptiness of the aggregate error list. -/
def validateRelationships (tickets : List RTicket) : VRes :=
  match cycleScan tickets with
  | none => ⟨false, ["internal cycle scan error"], []⟩
  | some (_, cycleErrs) =>
    let errs := dupErrsOf tickets ++ danglingErrsOf tickets ++ cycleErrs
    ⟨errs.isEmpty, errs, []⟩

/-- Substring test used to speak about which ids an error mentions. -/
def mentionsId (err tid : String) : Bool :=
  containsSeq tid.toList err.toList

/-- A set of done nodes closed under the dependency edges. -/
def ClosedB (tickets : List RTicket) (black : List String) : Prop :=
  ∀ x ∈ black, ∀ w ∈ depsOf tickets x, w ∈ black

/-- Nonempty dependency paths (the cycles of the graph are the self-reaching
nodes of this relation). -/
def depReach (tickets : List RTicket) : String → String → Prop :=
  Relation.TransGen (depEdge tickets)

/-- A concrete well-formed ticket record (the shape `create_task` builds). -/
def sampleTask : TaskModel :=
  ⟨pstr "TSK-0001", pstr "Test task", pstr "", pstr "open", pstr "medium",
   plist [], plist [], pdt (encodeDT 2025 7 11 10 0 0),
   pdt (encodeDT 2025 7 11 10 0 0), pnone, pnone, pnone, plist [], pnone,
   plist [], pdict []⟩

/-- A ticket file whose YAML between the delimiters fails to parse (the
malformed sample of the repository demos). -/
def badYamlContent : String :=
  "---\ninvalid: yaml: content: here\n---\n\nbody\n"

/-- A ticket file whose frontmatter carries `updated_at` strictly before
`created_at`. -/
def staleStampContent : String :=
  "---\nid: TSK-0001\ntitle: Test task\ncreated_at: 2025-01-02T00:00:00\nupdated_at: 2025-01-01T00:00:00\n---\n\nbody"

/-- The record `staleStampContent` loads to. -/
def staleStampModel : TaskModel :=
  ⟨pstr "TSK-0001", pstr "Test task", pstr "", pstr "open", pstr "medium",
   plist [], plist [], pdt (encodeDT 2025 1 2 0 0 0),
   pdt (encodeDT 2025 1 1 0 0 0), pnone, pnone, pnone, plist [], pnone,
   plist [], pdict []⟩

/-- Numeric value of the `updated_at` component encoding of a record. -/
def updKey (t : TaskModel) : Nat :=
  match t.updated_at with
  | pdt n => n
  | _ => 0

/-- The scenario field mapping of the schema-validation claim. -/
def scenarioFields : List (String × PyValue) :=
  [("id", pstr "TSK-0001"), ("title", pstr ""), ("status", pstr "invalid_status"),
   ("dependencies", plist [pstr "TSK-0001"])]

/-- A ticket set containing the cycle TSK-0001 → TSK-0002 → TSK-0003 →
TSK-0001 and, through TSK-0004, a second overlapping cycle that the scan
reaches first. -/
def multiCycleTickets : List RTicket :=
  [{ rid := "TSK-0001", dependencies := ["TSK-0004", "TSK-0002"] },
   { rid := "TSK-0004", dependencies := ["TSK-0003"] },
   { rid := "TSK-0002", dependencies := ["TSK-0003"] },
   { rid := "TSK-0003", dependencies := ["TSK-0001"] }]

/-- The three-ticket set whose dependency edges are exactly the cycle
TSK-0001 → TSK-0002 → TSK-0003 → TSK-0001. -/
def pureCycleTickets : List RTicket :=
  [{ rid := "TSK-0001", dependencies := ["TSK-0002"] },
   { rid := "TSK-0002", dependencies := ["TSK-0003"] },
   { rid := "TSK-0003", dependencies := ["TSK-0001"] }]

/-- The acyclic three-ticket chain scenario of the spec. -/
def chainTickets : List RTicket :=
  [{ rid := "TSK-0001" }, { rid := "TSK-0002", dependencies := ["TSK-0001"] },
   { rid := "TSK-0003", dependencies := ["TSK-0002"] }]

/-- C1: the frontmatter round-trip claim fails at the serialization step on
every valid record — `TaskModel.dict()` already renders `created_at` as an ISO
string (the field serializer runs in `model_dump`), so the subsequent
`frontmatter["created_at"].isoformat()` of `_save_task_file` is an attribute
access on a string and raises `AttributeError`; no file text is ever produced
to re-parse.  Shown here at the concrete valid record `sampleTask`. -/
theorem save_task_file_raises_on_valid_record :
    (taskModelDict sampleTask).map (fun fm => lookupKey fm "created_at") =
      Except.ok (some (pstr "2025-07-11T10:00:00")) ∧
    saveTaskFile sampleTask = Except.error PyErr.attributeError := by
  exact ⟨rfl, rfl⟩

/-- C2 counterexample: on input whose YAML between the delimiters fails to
parse, `_extract_frontmatter` returns `None` — not a result carrying
`valid=false` with a descriptive error — and `Task.load` on the same content
raises `TaskError` to its caller. -/
theorem extract_frontmatter_returns_none_on_bad_yaml :
    extractFrontmatter badYamlContent = none ∧
    taskLoadContent badYamlContent = Except.error "Failed to parse task file" := by
  exact ⟨rfl, rfl⟩

/-- C2 amended: whenever the delimiter pattern matches and the YAML between
the delimiters fails to parse, `_extract_frontmatter` returns `None` without
raising (no validity flag and no error message is produced), and `Task.load`
consequently raises `TaskError`. -/
theorem extract_frontmatter_none_of_yaml_failure
    (content : String) (rest : List Char) (i j : Nat)
    (hc : content.toList = '-' :: '-' :: '-' :: rest)
    (hi : lastNewlineIdx (rest.takeWhile isPySpace) = some i)
    (hj : findCloseIdx (rest.drop (i + 1)) = some j)
    (hy : yamlLoad (String.mk ((rest.drop (i + 1)).take j)) = none) :
    extractFrontmatter content = none ∧
    taskLoadContent content = Except.error "Failed to parse task file" := by
  have hext : extractFrontmatter content = none := by
    unfold extractFrontmatter
    rw [hc]
    simp only [hi, hj, hy]
  refine ⟨hext, ?_⟩
  unfold taskLoadContent
  rw [hext]

/-- C2 amended, witnessed at the malformed demo input. -/
theorem extract_frontmatter_none_of_yaml_failure_witness :
    extractFrontmatter badYamlContent = none ∧
    taskLoadContent badYamlContent = Except.error "Failed to parse task file" :=
  extract_frontmatter_none_of_yaml_failure badYamlContent
    (badYamlContent.toList.drop 3) 0 28 (by rfl) (by rfl) (by rfl) (by rfl)

/-- C3 counterexample: `_load_task_file` applies no timestamp-order check, so
a file whose frontmatter carries `updated_at` strictly before `created_at`
loads into a record violating the `updated_at >= created_at` invariant. -/
theorem load_task_file_breaks_timestamp_invariant :
    loadTaskFile staleStampContent = some staleStampModel ∧
    updKey staleStampModel < dtKey staleStampModel := by
  exact ⟨rfl, by decide⟩

/-- C5: the id format validator accepts exactly the ids whose piece before
the first dash is the canonical prefix of the expected type and whose
remainder is an all-digit run of length at least four. -/
theorem validate_id_format_characterization (tid ty : String) :
    (validateIdFormat tid ty).valid = true ↔
      (canonicalPfx ty = some (idPfx tid) ∧
       (idSuffixPart tid).toList.all isDigitChar = true ∧
       4 ≤ (idSuffixPart tid).length) := by
  simp only [validateIdFormat, idPfx, idSuffixPart]
  cases hc : canonicalPfx ty with
  | none => simp
  | some p =>
    cases hs : splitFirstDash tid.toList with
    | none =>
      simp only [List.isEmpty_cons, Option.some.injEq]
      constructor
      · intro h
        exact absurd h (by simp)
      · rintro ⟨-, -, hlen⟩
        simp [String.length] at hlen
    | some ab =>
      obtain ⟨a, b⟩ := ab
      dsimp only
      by_cases hp : String.mk a = p
      · by_cases hb : (b.all isDigitChar && decide (4 ≤ b.length)) = true
        · simp only [hp, if_pos rfl, hb, if_pos rfl]
          simp only [Bool.and_eq_true, decide_eq_true_eq] at hb
          simp [hp, hb.1, hb.2, String.length]
        · simp only [hp, if_pos rfl, if_neg hb]
          simp only [Bool.and_eq_true, decide_eq_true_eq, Decidable.not_and_iff_or_not] at hb
          constructor
          · intro h
            simp at h
          · rintro ⟨-, hdig, hlen⟩
            rcases hb with h | h
            · exact absurd (by simpa using hdig) h
            · exact absurd (by simpa [String.length] using hlen) h
      · rw [if_neg hp]
        constructor
        · intro h
          simp [List.isEmpty_iff] at h
        · rintro ⟨hpe, -, -⟩
          exact absurd (by injection hpe with h; exact h.symm) hp

/-- C6: in the task workflow graph, reopening a completed task is illegal and
the open to in-progress transition is legal. -/
theorem task_status_transition_examples :
    (validateStatusTransition "task" "completed" "open").valid = false ∧
    (validateStatusTransition "task" "open" "in_progress").valid = true := by
  exact ⟨rfl, rfl⟩

/-- C7: the scenario mapping with an empty title, an out-of-enum status and a
self-dependency validates as type task to an invalid result carrying at least
three errors, among them one for each of the three violations; validation
collects them all instead of stopping at the first. -/
theorem validate_ticket_scenario :
    (validateTicket scenarioFields "task").valid = false ∧
    3 ≤ (validateTicket scenarioFields "task").errors.length ∧
    "Field title violates minLength 1" ∈ (validateTicket scenarioFields "task").errors ∧
    "Field status value invalid_status is not a member of the status enum" ∈
      (validateTicket scenarioFields "task").errors ∧
    "Ticket TSK-0001 must not list its own id in dependencies" ∈
      (validateTicket scenarioFields "task").errors := by
  refine ⟨by decide, by decide, ?_, ?_, ?_⟩ <;> decide

/-- C9: every id the generator returns differs from every existing task file
stem, so the file subsequently written for it collides with no existing file. -/
theorem generate_task_id_fresh (fuel counter : Nat) (stems : List String)
    (tid : String) (h : generateTaskId fuel counter stems = some tid) :
    ∀ s ∈ stems, s ≠ tid := by
  induction fuel generalizing counter with
  | zero => simp [generateTaskId] at h
  | succ fuel ih =>
    unfold generateTaskId at h
    by_cases hmem : stems.contains (formatTaskId counter) = true
    · rw [if_pos hmem] at h
      exact ih _ h
    · rw [if_neg hmem] at h
      cases h
      intro s hs heq
      subst heq
      exact hmem (by simpa [List.contains, List.elem_eq_mem] using hs)

/-- C9, witnessed: with `TSK-0001` already on disk the generator skips to
`TSK-0002`, which differs from the existing stem. -/
theorem generate_task_id_fresh_witness :
    generateTaskId 3 1 ["TSK-0001"] = some "TSK-0002" ∧
    ∀ s ∈ ["TSK-0001"], s ≠ "TSK-0002" :=
  ⟨by rfl, generate_task_id_fresh 3 1 ["TSK-0001"] "TSK-0002" (by rfl)⟩

theorem taskModelMk_timestamps (fm : List (String × PyValue)) (t : TaskModel)
    (h : taskModelMk fm = some t) :
    vDT (lookupKey fm "created_at") = some t.created_at ∧
    vDT (lookupKey fm "updated_at") = some t.updated_at := by
  unfold taskModelMk at h
  obtain ⟨idv, h1, h⟩ := Option.bind_eq_some.mp h
  obtain ⟨titlev, h2, h⟩ := Option.bind_eq_some.mp h
  obtain ⟨descv, h3, h⟩ := Option.bind_eq_some.mp h
  obtain ⟨statusv, h4, h⟩ := Option.bind_eq_some.mp h
  obtain ⟨priov, h5, h⟩ := Option.bind_eq_some.mp h
  obtain ⟨assv, h6, h⟩ := Option.bind_eq_some.mp h
  obtain ⟨tagsv, h7, h⟩ := Option.bind_eq_some.mp h
  obtain ⟨cav, h8, h⟩ := Option.bind_eq_some.mp h
  obtain ⟨uav, h9, h⟩ := Option.bind_eq_some.mp h
  obtain ⟨ddv, h10, h⟩ := Option.bind_eq_some.mp h
  obtain ⟨estv, h11, h⟩ := Option.bind_eq_some.mp h
  obtain ⟨actv, h12, h⟩ := Option.bind_eq_some.mp h
  obtain ⟨depsv, h13, h⟩ := Option.bind_eq_some.mp h
  obtain ⟨parv, h14, h⟩ := Option.bind_eq_some.mp h
  obtain ⟨labv, h15, h⟩ := Option.bind_eq_some.mp h
  obtain ⟨metv, h16, h⟩ := Option.bind_eq_some.mp h
  cases h
  exact ⟨h8, h9⟩

theorem getF_setF_ne (t : TaskModel) (fk fk2 : FKey) (v : PyValue)
    (h : fk2 ≠ fk) : getF (setF t fk v) fk2 = getF t fk2 := by
  cases fk <;> cases fk2 <;> first | rfl | exact absurd rfl h

theorem setF_created_at_ne (t : TaskModel) (fk : FKey) (v : PyValue)
    (h : fk ≠ FKey.kcreated) : (setF t fk v).created_at = t.created_at := by
  cases fk <;> first | rfl | exact absurd rfl h

theorem fieldTable_snd_inj :
    ∀ p ∈ fieldTable, ∀ q ∈ fieldTable, p.2 = q.2 → p.1 = q.1 := by
  decide

theorem decodeField_inj (k f : String) (fk : FKey)
    (hk : decodeField k = some fk) (hf : decodeField f = some fk) : k = f := by
  unfold decodeField at hk hf
  obtain ⟨p, hp, hp2⟩ := Option.map_eq_some'.mp hk
  obtain ⟨q, hq, hq2⟩ := Option.map_eq_some'.mp hf
  have hpk : p.1 = k := by simpa using List.find?_some hp
  have hqf : q.1 = f := by simpa using List.find?_some hq
  have hpmem := List.mem_of_find?_eq_some hp
  have hqmem := List.mem_of_find?_eq_some hq
  have := fieldTable_snd_inj p hpmem q hqmem (hp2.trans hq2.symm)
  rw [← hpk, ← hqf, this]

theorem applyKwargs_created_at (isAttr : String → Bool)
    (kwargs : List (String × PyValue)) :
    ∀ (t t1 : TaskModel),
    ((kwargs.map Prod.fst).contains "created_at") = false →
    applyKwargs isAttr t kwargs = Except.ok t1 → t1.created_at = t.created_at := by
  induction kwargs with
  | nil =>
    intro t t1 _ h
    cases h
    rfl
  | cons kv rest ih =>
    intro t t1 hnk h
    simp only [List.map_cons, List.contains, List.elem_eq_mem, List.mem_cons,
      decide_eq_false_iff_not, not_or] at hnk
    unfold applyKwargs at h
    cases hdk : decodeField kv.1 with
    | some fk =>
      rw [hdk] at h
      have h3 := ih (setF t fk kv.2) t1
        (by simp [List.contains, List.elem_eq_mem, hnk.2]) h
      have hfk : fk ≠ FKey.kcreated := by
        intro he
        subst he
        exact hnk.1 (decodeField_inj "created_at" kv.1 FKey.kcreated rfl hdk)
      rw [h3, setF_created_at_ne t fk kv.2 hfk]
    | none =>
      rw [hdk] at h
      by_cases hmeth : isAttr kv.1 = true
      · rw [if_pos hmeth] at h
        exact absurd h (by simp)
      · rw [if_neg hmeth] at h
        exact ih t t1 (by simp [List.contains, List.elem_eq_mem, hnk.2]) h

/-- C3 amended: a record built by `create_task` satisfies the invariant with
equality (`created_at = updated_at = now`); a record produced by a completed
`Task.update` call that does not set `created_at` has `updated_at = now` and
an unchanged `created_at`, so the invariant holds whenever the clock is at or
after the record creation time.  (Records coming back from `load` /
`_load_task_file` are not checked and can violate the invariant, and an update
that sets `created_at` into the future can too.) -/
theorem timestamp_invariant_amended :
    (∀ kwargs now tid t, createTask kwargs now tid = Except.ok t →
      t.created_at = pdt now ∧ t.updated_at = pdt now) ∧
    (∀ (isAttr : String → Bool) t kwargs now c t2,
      taskUpdate isAttr t kwargs now = Except.ok t2 →
      ((kwargs.map Prod.fst).contains "created_at") = false →
      t.created_at = pdt c → c ≤ now →
      t2.created_at = pdt c ∧ t2.updated_at = pdt now ∧ c ≤ now) := by
  constructor
  · intro kwargs now tid t h
    unfold createTask at h
    cases hmk : taskModelMk (createTaskFm kwargs now tid) with
    | none => rw [hmk] at h; cases h
    | some t0 =>
      rw [hmk] at h
      cases h
      have hts := taskModelMk_timestamps _ _ hmk
      have hca : lookupKey (createTaskFm kwargs now tid) "created_at" = some (pdt now) := by
        rfl
      have hua : lookupKey (createTaskFm kwargs now tid) "updated_at" = some (pdt now) := by
        rfl
      rw [hca, hua] at hts
      obtain ⟨h1, h2⟩ := hts
      simp only [vDT, Option.some.injEq] at h1 h2
      exact ⟨h1.symm, h2.symm⟩
  · intro isAttr t kwargs now c t2 h hnk hca hle
    unfold taskUpdate at h
    cases hap : applyKwargs isAttr t kwargs with
    | error e => rw [hap] at h; cases h
    | ok t1 =>
      rw [hap] at h
      simp only [Except.map, Except.ok.injEq] at h
      subst h
      refine ⟨?_, rfl, hle⟩
      have := applyKwargs_created_at isAttr kwargs t t1 hnk hap
      simp only [this, hca]

/-- C3 amended, witnessed: a concrete `create_task` call yields equal
timestamps, and a concrete `update` call at a later clock keeps the
invariant. -/
theorem timestamp_invariant_amended_witness :
    (∃ t, createTask [] 100 "TSK-0001" = Except.ok t ∧
      t.created_at = pdt 100 ∧ t.updated_at = pdt 100) ∧
    (∃ t2, taskUpdate taskMethodNames.contains sampleTask [("title", pstr "Renamed")]
        (encodeDT 2026 1 1 0 0 0) = Except.ok t2 ∧
      t2.created_at = pdt (encodeDT 2025 7 11 10 0 0) ∧
      t2.updated_at = pdt (encodeDT 2026 1 1 0 0 0) ∧
      encodeDT 2025 7 11 10 0 0 ≤ encodeDT 2026 1 1 0 0 0) := by
  constructor
  · refine ⟨_, rfl, ?_⟩
    have h := (timestamp_invariant_amended.1) [] 100 "TSK-0001" _ rfl
    exact h
  · refine ⟨_, rfl, ?_⟩
    have h := (timestamp_invariant_amended.2) taskMethodNames.contains sampleTask
      [("title", pstr "Renamed")]
      (encodeDT 2026 1 1 0 0 0) (encodeDT 2025 7 11 10 0 0) _ rfl (by decide)
      (by rfl) (by decide)
    exact ⟨h.1, h.2.1, h.2.2⟩

/-- C8 counterexample: a kwargs key naming a non-field attribute of the model
(the `copy` method) makes the update raise `ValueError`, so `updated_at` is
not set to the current time on that call, contrary to the claim that every
call sets it.  The run consults the attribute surface only at the key `copy`,
a method every `BaseModel` instance has, so every faithful instantiation of
the surface — here `taskMethodNames.contains` — forces this outcome. -/
theorem task_update_raises_on_method_key :
    taskUpdate taskMethodNames.contains sampleTask [("copy", pint 0)] 50 =
      Except.error PyErr.valueError := by
  rfl

theorem getField_setF_ne (t : TaskModel) (k : String) (fk : FKey) (v : PyValue)
    (f : String) (h : f ≠ k) (hdk : decodeField k = some fk) :
    getField (setF t fk v) f = getField t f := by
  unfold getField
  cases hdf : decodeField f with
  | none => rfl
  | some fk2 =>
    have hne : fk2 ≠ fk := by
      intro he
      subst he
      exact h (decodeField_inj f k fk2 hdf hdk)
    show some (getF (setF t fk v) fk2) = some (getF t fk2)
    rw [getF_setF_ne t fk fk2 v hne]

theorem getField_updateStamp (t : TaskModel) (v : PyValue) (f : String)
    (h : f ≠ "updated_at") :
    getField { t with updated_at := v } f = getField t f := by
  have : ({ t with updated_at := v } : TaskModel) = setF t FKey.kupdated v := rfl
  rw [this]
  exact getField_setF_ne t "updated_at" FKey.kupdated v f h rfl

theorem applyKwargs_frame (isAttr : String → Bool) (kwargs : List (String × PyValue))
    (hm : ∀ kv ∈ kwargs, (decodeField kv.1).isSome = true ∨ isAttr kv.1 = false) :
    ∀ t : TaskModel, ∃ t1, applyKwargs isAttr t kwargs = Except.ok t1 ∧
      ∀ f, ((kwargs.map Prod.fst).contains f) = false → getField t1 f = getField t f := by
  induction kwargs with
  | nil =>
    intro t
    exact ⟨t, rfl, fun f _ => rfl⟩
  | cons kv rest ih =>
    intro t
    have hmr : ∀ kv2 ∈ rest, (decodeField kv2.1).isSome = true ∨ isAttr kv2.1 = false :=
      fun kv2 h2 => hm kv2 (List.mem_cons_of_mem kv h2)
    unfold applyKwargs
    cases hdk : decodeField kv.1 with
    | some fk =>
      obtain ⟨t1, hok, hframe⟩ := ih hmr (setF t fk kv.2)
      refine ⟨t1, hok, fun f hf => ?_⟩
      simp only [List.map_cons, List.contains, List.elem_eq_mem, List.mem_cons,
        decide_eq_false_iff_not, not_or] at hf
      rw [hframe f (by simp [List.contains, List.elem_eq_mem, hf.2]),
        getField_setF_ne t kv.1 fk kv.2 f hf.1 hdk]
    | none =>
      have hmkv : isAttr kv.1 = false := by
        rcases hm kv (List.mem_cons_self kv rest) with h1 | h1
        · rw [hdk] at h1
          exact absurd h1 (by simp)
        · exact h1
      rw [if_neg (by rw [hmkv]; simp)]
      obtain ⟨t1, hok, hframe⟩ := ih hmr t
      refine ⟨t1, hok, fun f hf => ?_⟩
      simp only [List.map_cons, List.contains, List.elem_eq_mem, List.mem_cons,
        decide_eq_false_iff_not, not_or] at hf
      exact hframe f (by simp [List.contains, List.elem_eq_mem, hf.2])

/-- C8 amended: for every `Task.update(**kwargs)` call in which every kwargs
key is either a declared field of the model or a name that is not an attribute
of the model object at all, the call completes, `updated_at` is set to the
current time, and every attribute other than `updated_at` whose name does not
appear in kwargs is unchanged; in particular the non-attribute keys are
silently ignored.  (A key naming a non-field attribute such as a model method
raises `ValueError` instead.)  The theorem quantifies over every candidate
non-field attribute surface `isAttr`, so it holds in particular for the real
pydantic surface, whatever its exact extent. -/
theorem task_update_frame (isAttr : String → Bool) (t : TaskModel)
    (kwargs : List (String × PyValue)) (now : Nat)
    (hm : ∀ kv ∈ kwargs, (decodeField kv.1).isSome = true ∨ isAttr kv.1 = false) :
    ∃ t2, taskUpdate isAttr t kwargs now = Except.ok t2 ∧
      t2.updated_at = pdt now ∧
      ∀ f, f ≠ "updated_at" → ((kwargs.map Prod.fst).contains f) = false →
        getField t2 f = getField t f := by
  obtain ⟨t1, hok, hframe⟩ := applyKwargs_frame isAttr kwargs hm t
  refine ⟨{ t1 with updated_at := pdt now }, ?_, rfl, fun f hf1 hf2 => ?_⟩
  · unfold taskUpdate
    rw [hok]
    rfl
  · rw [getField_updateStamp t1 (pdt now) f hf1]
    exact hframe f hf2

/-- C8 amended, witnessed: a concrete update with one field key and one
non-attribute key completes, stamps `updated_at`, ignores the unknown key and
leaves an untouched field unchanged. -/
theorem task_update_frame_witness :
    ∃ t2, taskUpdate taskMethodNames.contains sampleTask
        [("title", pstr "Renamed"), ("frobnicate", pint 1)] 77 =
        Except.ok t2 ∧
      t2.updated_at = pdt 77 ∧
      getField t2 "description" = getField sampleTask "description" := by
  obtain ⟨t2, h1, h2, h3⟩ := task_update_frame taskMethodNames.contains sampleTask
    [("title", pstr "Renamed"), ("frobnicate", pint 1)] 77 (by decide)
  exact ⟨t2, h1, h2, h3 "description" (by decide) (by decide)⟩

theorem filterMap_filter_isSome {α β : Type} (f : α → Option β) (l : List α) :
    (l.filter fun a => (f a).isSome).filterMap f = l.filterMap f := by
  induction l with
  | nil => rfl
  | cons a l ih =>
    cases hf : f a <;>
      simp [List.filter_cons, List.filterMap_cons, hf, ih]

/-- C10: `list_tasks` is total on arbitrary file contents — it never raises;
a file whose frontmatter is missing, whose YAML fails to parse or whose model
validation fails is silently omitted (dropping all malformed files leaves the
result unchanged, and every returned task loads from some input file); the
result is sorted by `created_at`, newest first. -/
theorem list_tasks_robust :
    (∀ contents sF tF,
      (listTasks contents sF tF).Pairwise fun a b => dtKey b ≤ dtKey a) ∧
    (∀ contents sF tF, listTasks contents sF tF =
      listTasks (contents.filter fun c => (loadTaskFile c).isSome) sF tF) ∧
    (∀ contents sF tF t, t ∈ listTasks contents sF tF →
      ∃ c ∈ contents, loadTaskFile c = some t) := by
  refine ⟨fun contents sF tF => ?_, fun contents sF tF => ?_, fun contents sF tF t ht => ?_⟩
  · unfold listTasks
    refine List.Pairwise.imp ?_ (List.sorted_mergeSort ?_ ?_ _)
    · intro a b h
      exact of_decide_eq_true h
    · intro a b c hab hbc
      simp only [decide_eq_true_eq] at hab hbc ⊢
      omega
    · intro a b
      simp only [Bool.or_eq_true, decide_eq_true_eq]
      omega
  · unfold listTasks
    rw [filterMap_filter_isSome]
  · unfold listTasks at ht
    rw [List.mem_mergeSort] at ht
    have ht2 := List.mem_of_mem_filter ht
    rw [List.mem_filterMap] at ht2
    exact ht2

set_option maxRecDepth 4000 in
/-- C10, witnessed: one well-formed and one garbage file give back exactly the
record of the well-formed file, which therefore loads from an input file. -/
theorem list_tasks_robust_witness :
    staleStampModel ∈ listTasks [staleStampContent, "garbage"] none none ∧
    ∃ c ∈ [staleStampContent, "garbage"], loadTaskFile c = some staleStampModel := by
  have h1 : List.filterMap loadTaskFile [staleStampContent, "garbage"] =
      [staleStampModel] := rfl
  have hmem : listTasks [staleStampContent, "garbage"] none none = [staleStampModel] := by
    unfold listTasks
    rw [h1]
    simp [List.mergeSort]
  have hin : staleStampModel ∈ listTasks [staleStampContent, "garbage"] none none := by
    rw [hmem]
    exact List.mem_singleton.mpr rfl
  exact ⟨hin, (list_tasks_robust.2.2) [staleStampContent, "garbage"] none none
    staleStampModel hin⟩

theorem closedB_reach (tickets : List RTicket) (black : List String)
    (hc : ClosedB tickets black) {x y : String} (hx : x ∈ black)
    (h : depReach tickets x y) : y ∈ black := by
  induction h with
  | single he => exact hc x hx _ he
  | tail _ he ih => exact hc _ ih _ he

theorem depsOf_subset_universe (tickets : List RTicket) :
    ∀ x, ∀ w ∈ depsOf tickets x, w ∈ depUniverse tickets := by
  intro x w hw
  unfold depsOf at hw
  cases hf : tickets.find? (fun t => t.rid = x) with
  | none => rw [hf] at hw; cases hw
  | some t =>
    rw [hf] at hw
    unfold depUniverse
    refine List.mem_append_right _ ?_
    exact List.mem_flatMap.mpr ⟨t, List.mem_of_find?_eq_some hf, hw⟩

theorem edge_src_mem (tickets : List RTicket) (u w : String)
    (h : depEdge tickets u w) : u ∈ tickets.map (fun t => t.rid) := by
  unfold depEdge depsOf at h
  cases hf : tickets.find? (fun t => t.rid = u) with
  | none => rw [hf] at h; cases h
  | some t =>
    have ht : t.rid = u := by simpa using List.find?_some hf
    exact List.mem_map.mpr ⟨t, List.mem_of_find?_eq_some hf, ht⟩

theorem nodup_subset_length {l l2 : List String} (hn : l.Nodup)
    (hs : ∀ x ∈ l, x ∈ l2) : l.length ≤ l2.length := by
  induction l generalizing l2 with
  | nil => simp
  | cons a l ih =>
    have ha : a ∈ l2 := hs a (List.mem_cons_self a l)
    have hn2 := List.nodup_cons.mp hn
    have hsub : ∀ x ∈ l, x ∈ l2.erase a := by
      intro x hx
      have hxa : x ≠ a := by
        intro he
        subst he
        exact hn2.1 hx
      exact (List.mem_erase_of_ne hxa).mpr (hs x (List.mem_cons_of_mem a hx))
    have hle := ih hn2.2 hsub
    have herase := List.length_erase_of_mem ha
    have hpos : 1 ≤ l2.length := List.length_pos.mpr (List.ne_nil_of_mem ha)
    simp only [List.length_cons]
    omega

theorem dfsVisit_succ_eq (tickets : List RTicket) (fuel : Nat) (v : String)
    (grey black : List String) :
    dfsVisit tickets (fuel + 1) v grey black =
      match dfsEdges tickets fuel (depsOf tickets v) v grey black [] with
      | none => none
      | some (bl, er) => some (v :: bl, er) := rfl

theorem dfsEdges_nil_eq (tickets : List RTicket) (fuel : Nat) (v : String)
    (grey black errs : List String) :
    dfsEdges tickets fuel [] v grey black errs = some (black, errs) := rfl

theorem dfsEdges_cons_eq (tickets : List RTicket) (fuel : Nat) (w : String)
    (rest : List String) (v : String) (grey black errs : List String) :
    dfsEdges tickets fuel (w :: rest) v grey black errs =
      if black.contains w then dfsEdges tickets fuel rest v grey black errs
      else if (v :: grey).contains w then
        dfsEdges tickets fuel rest v grey black (errs ++ [cycleErrorText v grey w])
      else
        match dfsVisit tickets fuel w (v :: grey) black with
        | none => none
        | some (bl2, er2) => dfsEdges tickets fuel rest v grey bl2 (errs ++ er2) := rfl

theorem dfsEdges_errs_pfx (tickets : List RTicket) (fuel : Nat) :
    ∀ (ws : List String) (v : String) (grey black errs0 bl er : List String),
    dfsEdges tickets fuel ws v grey black errs0 = some (bl, er) →
    ∃ tail, er = errs0 ++ tail := by
  intro ws
  induction ws with
  | nil =>
    intro v grey black errs0 bl er h
    rw [dfsEdges_nil_eq] at h
    cases h
    exact ⟨[], (List.append_nil errs0).symm⟩
  | cons w rest ih =>
    intro v grey black errs0 bl er h
    rw [dfsEdges_cons_eq] at h
    by_cases h1 : black.contains w = true
    · rw [if_pos h1] at h
      exact ih v grey black errs0 bl er h
    · rw [if_neg h1] at h
      by_cases h2 : (v :: grey).contains w = true
      · rw [if_pos h2] at h
        obtain ⟨tail, ht⟩ := ih v grey black (errs0 ++ [cycleErrorText v grey w]) bl er h
        exact ⟨[cycleErrorText v grey w] ++ tail, by rw [ht, List.append_assoc]⟩
      · rw [if_neg h2] at h
        cases hv : dfsVisit tickets fuel w (v :: grey) black with
        | none => rw [hv] at h; cases h
        | some pr =>
          obtain ⟨bl2, er2⟩ := pr
          rw [hv] at h
          obtain ⟨tail, ht⟩ := ih v grey bl2 (errs0 ++ er2) bl er h
          exact ⟨er2 ++ tail, by rw [ht, List.append_assoc]⟩

theorem dfsTop_errs_pfx (tickets : List RTicket) (fuel : Nat) :
    ∀ (ids black errs0 bl er : List String),
    dfsTop tickets fuel ids black errs0 = some (bl, er) →
    ∃ tail, er = errs0 ++ tail := by
  intro ids
  induction ids with
  | nil =>
    intro black errs0 bl er h
    unfold dfsTop at h
    cases h
    exact ⟨[], (List.append_nil errs0).symm⟩
  | cons t rest ih =>
    intro black errs0 bl er h
    unfold dfsTop at h
    by_cases h1 : black.contains t = true
    · rw [if_pos h1] at h
      exact ih black errs0 bl er h
    · rw [if_neg h1] at h
      cases hv : dfsVisit tickets fuel t [] black with
      | none => rw [hv] at h; cases h
      | some pr =>
        obtain ⟨bl2, er2⟩ := pr
        rw [hv] at h
        obtain ⟨tail, ht⟩ := ih bl2 (errs0 ++ er2) bl er h
        exact ⟨er2 ++ tail, by rw [ht, List.append_assoc]⟩

theorem transGen_head_decomp {r : String → String → Prop} {a b : String}
    (h : Relation.TransGen r a b) : ∃ c, r a c ∧ (c = b ∨ Relation.TransGen r c b) := by
  induction h with
  | single hr => exact ⟨_, hr, Or.inl rfl⟩
  | tail _ hbc ih =>
    obtain ⟨c, hc, hrest⟩ := ih
    refine ⟨c, hc, Or.inr ?_⟩
    rcases hrest with he | ht
    · exact he ▸ Relation.TransGen.single hbc
    · exact ht.tail hbc

/-- The one-visit invariant of the error-free scan: monotone done set, the
visited node done, done set edge-closed, every newly done node reaches
neither itself nor any in-progress node, and no in-progress node turns
done. -/
def VisitInv (tickets : List RTicket) (fuel : Nat) : Prop :=
  ∀ (v : String) (grey black bl er : List String),
    dfsVisit tickets fuel v grey black = some (bl, er) → er = [] →
    ClosedB tickets black → v ∉ black → v ∉ grey → (∀ g ∈ grey, g ∉ black) →
    (∀ x ∈ black, x ∈ bl) ∧ v ∈ bl ∧ ClosedB tickets bl ∧
    (∀ x ∈ bl, x ∉ black → ∀ g, (g ∈ v :: grey ∨ g = x) → ¬ depReach tickets x g) ∧
    (∀ g ∈ grey, g ∉ bl)

theorem dfsEdges_mega (tickets : List RTicket) (fuel : Nat)
    (vp : VisitInv tickets fuel) :
    ∀ (ws : List String) (v : String) (grey : List String),
    v ∉ grey →
    ∀ (black errs0 bl er : List String),
    dfsEdges tickets fuel ws v grey black errs0 = some (bl, er) → er = [] →
    ClosedB tickets black → v ∉ black → (∀ g ∈ grey, g ∉ black) →
    (∀ x ∈ black, x ∈ bl) ∧ ClosedB tickets bl ∧ (∀ w ∈ ws, w ∈ bl) ∧
    (∀ x ∈ bl, x ∉ black → ∀ g, (g ∈ v :: grey ∨ g = x) → ¬ depReach tickets x g) ∧
    (∀ g ∈ v :: grey, g ∉ bl) := by
  intro ws v grey hvg
  induction ws with
  | nil =>
    intro black errs0 bl er h her hc hvb hgb
    rw [dfsEdges_nil_eq] at h
    cases h
    refine ⟨fun x hx => hx, hc, by simp, fun x hx hxb => absurd hx hxb, ?_⟩
    intro g hg
    rcases List.mem_cons.mp hg with hgv | hgg
    · exact hgv ▸ hvb
    · exact hgb g hgg
  | cons w rest ih =>
    intro black errs0 bl er h her hc hvb hgb
    rw [dfsEdges_cons_eq] at h
    by_cases h1 : black.contains w = true
    · rw [if_pos h1] at h
      obtain ⟨r1, r2, r3, r4, r5⟩ := ih black errs0 bl er h her hc hvb hgb
      have hwb : w ∈ black := by simpa [List.contains, List.elem_eq_mem] using h1
      refine ⟨r1, r2, ?_, r4, r5⟩
      intro w2 hw2
      rcases List.mem_cons.mp hw2 with hww | hwr
      · exact hww ▸ r1 w hwb
      · exact r3 w2 hwr
    · rw [if_neg h1] at h
      by_cases h2 : (v :: grey).contains w = true
      · rw [if_pos h2] at h
        obtain ⟨tail, ht⟩ := dfsEdges_errs_pfx tickets fuel rest v grey black
          (errs0 ++ [cycleErrorText v grey w]) bl er h
        rw [her] at ht
        exact absurd ht.symm (by simp)
      · rw [if_neg h2] at h
        cases hv : dfsVisit tickets fuel w (v :: grey) black with
        | none => rw [hv] at h; cases h
        | some pr =>
          obtain ⟨bl2, er2⟩ := pr
          rw [hv] at h
          have her2 : er2 = [] := by
            obtain ⟨tail, ht⟩ := dfsEdges_errs_pfx tickets fuel rest v grey bl2
              (errs0 ++ er2) bl er h
            rw [her] at ht
            have := List.append_eq_nil.mp ht.symm
            exact (List.append_eq_nil.mp this.1).2
          have hwb : w ∉ black := by
            simpa [List.contains, List.elem_eq_mem] using h1
          have hwg : w ∉ v :: grey := by
            simpa [List.contains, List.elem_eq_mem] using h2
          have hgb2 : ∀ g ∈ v :: grey, g ∉ black := by
            intro g hg
            rcases List.mem_cons.mp hg with hgv | hgg
            · exact hgv ▸ hvb
            · exact hgb g hgg
          obtain ⟨s1, s2, s3, s4, s5⟩ := vp w (v :: grey) black bl2 er2 hv her2 hc hwb hwg hgb2
          subst her2
          have hvb2 : v ∉ bl2 := s5 v (List.mem_cons_self v grey)
          have hgb3 : ∀ g ∈ grey, g ∉ bl2 := fun g hg => s5 g (List.mem_cons_of_mem v hg)
          obtain ⟨r1, r2, r3, r4, r5⟩ := ih bl2 (errs0 ++ []) bl er h her s3 hvb2 hgb3
          refine ⟨fun x hx => r1 x (s1 x hx), r2, ?_, ?_, r5⟩
          · intro w2 hw2
            rcases List.mem_cons.mp hw2 with hww | hwr
            · exact hww ▸ r1 w s2
            · exact r3 w2 hwr
          · intro x hx hxb g hg
            by_cases hxbl2 : x ∈ bl2
            · refine s4 x hxbl2 hxb g ?_
              rcases hg with hgm | hgx
              · exact Or.inl (List.mem_cons_of_mem w hgm)
              · exact Or.inr hgx
            · exact r4 x hx hxbl2 g hg

theorem dfsVisit_mega (tickets : List RTicket) :
    ∀ fuel, VisitInv tickets fuel := by
  intro fuel
  induction fuel with
  | zero =>
    intro v grey black bl er h
    unfold dfsVisit at h
    cases h
  | succ fuel ih =>
    intro v grey black bl er h her hc hvb hvg hgb
    rw [dfsVisit_succ_eq] at h
    cases he : dfsEdges tickets fuel (depsOf tickets v) v grey black [] with
    | none => rw [he] at h; cases h
    | some pr =>
      obtain ⟨ble, ere⟩ := pr
      rw [he] at h
      cases h
      obtain ⟨e1, e2, e3, e4, e5⟩ := dfsEdges_mega tickets fuel ih
        (depsOf tickets v) v grey hvg black [] ble er he her hc hvb hgb
      refine ⟨fun x hx => List.mem_cons_of_mem v (e1 x hx),
        List.mem_cons_self v ble, ?_, ?_, ?_⟩
      · intro x hx w hw
        rcases List.mem_cons.mp hx with hxv | hxe
        · exact List.mem_cons_of_mem v (e3 w (hxv ▸ hw))
        · exact List.mem_cons_of_mem v (e2 x hxe w hw)
      · intro x hx hxb g hg
        rcases List.mem_cons.mp hx with hxv | hxe
        · subst hxv
          have hgm : g ∈ x :: grey := by
            rcases hg with hgm | hgx
            · exact hgm
            · exact hgx ▸ List.mem_cons_self x grey
          intro hpath
          obtain ⟨w0, hw0, hrest0⟩ := transGen_head_decomp hpath
          rcases hrest0 with heq | hrest
          · exact e5 g hgm (e3 g (heq ▸ hw0))
          · have hw0bl : w0 ∈ ble := e3 w0 hw0
            by_cases hw0black : w0 ∈ black
            · have hgblack : g ∈ black := closedB_reach tickets black hc hw0black hrest
              rcases List.mem_cons.mp hgm with hgv | hgg
              · exact hvb (hgv ▸ hgblack)
              · exact hgb g hgg hgblack
            · exact e4 w0 hw0bl hw0black g (Or.inl hgm) hrest
        · exact e4 x hxe hxb g hg
      · intro g hg
        intro hgbl
        rcases List.mem_cons.mp hgbl with hgv | hge
        · exact hvg (hgv ▸ hg)
        · exact e5 g (List.mem_cons_of_mem v hg) hge

/-- Soundness side of the scan: reported errors only arise from back-edges,
which close real cycles. -/
def VisitSound (tickets : List RTicket) (fuel : Nat) : Prop :=
  ∀ (v : String) (grey black bl er : List String),
    dfsVisit tickets fuel v grey black = some (bl, er) →
    (∀ g ∈ grey, depReach tickets g v) →
    (er = [] ∨ ∃ x, depReach tickets x x)

theorem dfsEdges_sound (tickets : List RTicket) (fuel : Nat)
    (vs : VisitSound tickets fuel) :
    ∀ (ws : List String) (v : String) (grey : List String),
    (∀ w ∈ ws, w ∈ depsOf tickets v) →
    (∀ g ∈ grey, depReach tickets g v) →
    ∀ (black errs0 bl er : List String),
    dfsEdges tickets fuel ws v grey black errs0 = some (bl, er) →
    (er = errs0 ∨ ∃ x, depReach tickets x x) := by
  intro ws v grey hws hchain
  induction ws with
  | nil =>
    intro black errs0 bl er h
    rw [dfsEdges_nil_eq] at h
    cases h
    exact Or.inl rfl
  | cons w rest ih =>
    intro black errs0 bl er h
    have hwd : w ∈ depsOf tickets v := hws w (List.mem_cons_self w rest)
    have hwsr : ∀ w2 ∈ rest, w2 ∈ depsOf tickets v :=
      fun w2 h2 => hws w2 (List.mem_cons_of_mem w h2)
    rw [dfsEdges_cons_eq] at h
    by_cases h1 : black.contains w = true
    · rw [if_pos h1] at h
      exact ih hwsr black errs0 bl er h
    · rw [if_neg h1] at h
      by_cases h2 : (v :: grey).contains w = true
      · refine Or.inr ?_
        have hwg : w ∈ v :: grey := by simpa [List.contains, List.elem_eq_mem] using h2
        rcases List.mem_cons.mp hwg with hwv | hwgrey
        · exact ⟨v, Relation.TransGen.single (hwv ▸ hwd)⟩
        · exact ⟨w, Relation.TransGen.tail (hchain w hwgrey) hwd⟩
      · rw [if_neg h2] at h
        cases hv : dfsVisit tickets fuel w (v :: grey) black with
        | none => rw [hv] at h; cases h
        | some pr =>
          obtain ⟨bl2, er2⟩ := pr
          rw [hv] at h
          have hchain2 : ∀ g ∈ v :: grey, depReach tickets g w := by
            intro g hg
            rcases List.mem_cons.mp hg with hgv | hgg
            · exact hgv ▸ Relation.TransGen.single hwd
            · exact Relation.TransGen.tail (hchain g hgg) hwd
          rcases vs w (v :: grey) black bl2 er2 hv hchain2 with her2 | hcyc
          · subst her2
            rcases ih hwsr bl2 (errs0 ++ []) bl er h with hleft | hcyc
            · exact Or.inl (by simpa using hleft)
            · exact Or.inr hcyc
          · exact Or.inr hcyc

theorem dfsVisit_sound (tickets : List RTicket) :
    ∀ fuel, VisitSound tickets fuel := by
  intro fuel
  induction fuel with
  | zero =>
    intro v grey black bl er h
    unfold dfsVisit at h
    cases h
  | succ fuel ih =>
    intro v grey black bl er h hchain
    rw [dfsVisit_succ_eq] at h
    cases he : dfsEdges tickets fuel (depsOf tickets v) v grey black [] with
    | none => rw [he] at h; cases h
    | some pr =>
      obtain ⟨ble, ere⟩ := pr
      rw [he] at h
      cases h
      exact dfsEdges_sound tickets fuel ih (depsOf tickets v) v grey
        (fun w hw => hw) hchain black [] ble er he

theorem dfsTop_sound (tickets : List RTicket) (fuel : Nat) :
    ∀ (ids black errs0 bl er : List String),
    dfsTop tickets fuel ids black errs0 = some (bl, er) →
    (er = errs0 ∨ ∃ x, depReach tickets x x) := by
  intro ids
  induction ids with
  | nil =>
    intro black errs0 bl er h
    unfold dfsTop at h
    cases h
    exact Or.inl rfl
  | cons t rest ih =>
    intro black errs0 bl er h
    unfold dfsTop at h
    by_cases h1 : black.contains t = true
    · rw [if_pos h1] at h
      exact ih black errs0 bl er h
    · rw [if_neg h1] at h
      cases hv : dfsVisit tickets fuel t [] black with
      | none => rw [hv] at h; cases h
      | some pr =>
        obtain ⟨bl2, er2⟩ := pr
        rw [hv] at h
        rcases dfsVisit_sound tickets fuel t [] black bl2 er2 hv (by simp) with her2 | hcyc
        · subst her2
          rcases ih bl2 (errs0 ++ []) bl er h with hleft | hcyc
          · exact Or.inl (by simpa using hleft)
          · exact Or.inr hcyc
        · exact Or.inr hcyc

/-- Fuel sufficiency of one visit: the stack is a duplicate-free list of
universe nodes, so the recursion depth is bounded by the universe size. -/
def VisitSome (tickets : List RTicket) (fuel : Nat) : Prop :=
  ∀ (v : String) (grey black : List String),
    (v :: grey).Nodup → (∀ g ∈ v :: grey, g ∈ depUniverse tickets) →
    (depUniverse tickets).length + 1 ≤ fuel + (v :: grey).length →
    (dfsVisit tickets fuel v grey black).isSome = true

theorem dfsEdges_some (tickets : List RTicket) (fuel : Nat)
    (vs : VisitSome tickets fuel) :
    ∀ (ws : List String) (v : String) (grey : List String),
    (v :: grey).Nodup → (∀ g ∈ v :: grey, g ∈ depUniverse tickets) →
    (∀ w ∈ ws, w ∈ depUniverse tickets) →
    (depUniverse tickets).length + 1 ≤ fuel + 1 + (v :: grey).length →
    ∀ (black errs0 : List String),
    (dfsEdges tickets fuel ws v grey black errs0).isSome = true := by
  intro ws v grey hnd hgu hwsu hfuel
  induction ws with
  | nil =>
    intro black errs0
    rw [dfsEdges_nil_eq]
    rfl
  | cons w rest ih =>
    intro black errs0
    have hwu : w ∈ depUniverse tickets := hwsu w (List.mem_cons_self w rest)
    have hwsr : ∀ w2 ∈ rest, w2 ∈ depUniverse tickets :=
      fun w2 h2 => hwsu w2 (List.mem_cons_of_mem w h2)
    rw [dfsEdges_cons_eq]
    by_cases h1 : black.contains w = true
    · rw [if_pos h1]
      exact ih hwsr black errs0
    · rw [if_neg h1]
      by_cases h2 : (v :: grey).contains w = true
      · rw [if_pos h2]
        exact ih hwsr black (errs0 ++ [cycleErrorText v grey w])
      · rw [if_neg h2]
        have hwg : w ∉ v :: grey := by simpa [List.contains, List.elem_eq_mem] using h2
        have hsome := vs w (v :: grey) black
          (List.nodup_cons.mpr ⟨hwg, hnd⟩)
          (by
            intro g hg
            rcases List.mem_cons.mp hg with hgw | hgm
            · exact hgw ▸ hwu
            · exact hgu g hgm)
          (by simp only [List.length_cons] at hfuel ⊢; omega)
        cases hv : dfsVisit tickets fuel w (v :: grey) black with
        | none => rw [hv] at hsome; cases hsome
        | some pr =>
          obtain ⟨bl2, er2⟩ := pr
          exact ih hwsr bl2 (errs0 ++ er2)

theorem dfsVisit_some (tickets : List RTicket) :
    ∀ fuel, VisitSome tickets fuel := by
  intro fuel
  induction fuel with
  | zero =>
    intro v grey black hnd hgu hfuel
    have hle := nodup_subset_length hnd hgu
    simp only [Nat.zero_add] at hfuel
    omega
  | succ fuel ih =>
    intro v grey black hnd hgu hfuel
    rw [dfsVisit_succ_eq]
    have hedges := dfsEdges_some tickets fuel ih (depsOf tickets v) v grey hnd hgu
      (depsOf_subset_universe tickets v)
      (by simp only [List.length_cons] at hfuel ⊢; omega)
      black []
    cases he : dfsEdges tickets fuel (depsOf tickets v) v grey black [] with
    | none => rw [he] at hedges; cases hedges
    | some pr =>
      obtain ⟨ble, ere⟩ := pr
      rfl

theorem dfsTop_some (tickets : List RTicket) (fuel : Nat)
    (hfuel : (depUniverse tickets).length ≤ fuel) :
    ∀ (ids : List String), (∀ t ∈ ids, t ∈ depUniverse tickets) →
    ∀ (black errs0 : List String),
    (dfsTop tickets fuel ids black errs0).isSome = true := by
  intro ids
  induction ids with
  | nil =>
    intro _ black errs0
    unfold dfsTop
    rfl
  | cons t rest ih =>
    intro hu black errs0
    have htu : t ∈ depUniverse tickets := hu t (List.mem_cons_self t rest)
    have hur : ∀ t2 ∈ rest, t2 ∈ depUniverse tickets :=
      fun t2 h2 => hu t2 (List.mem_cons_of_mem t h2)
    unfold dfsTop
    by_cases h1 : black.contains t = true
    · rw [if_pos h1]
      exact ih hur black errs0
    · rw [if_neg h1]
      have hsome := dfsVisit_some tickets fuel t [] black (by simp)
        (by simpa using htu) (by simp; omega)
      cases hv : dfsVisit tickets fuel t [] black with
      | none => rw [hv] at hsome; cases hsome
      | some pr =>
        obtain ⟨bl2, er2⟩ := pr
        exact ih hur bl2 (errs0 ++ er2)

theorem dfsTop_mega (tickets : List RTicket) (fuel : Nat) :
    ∀ (ids black errs0 bl er : List String),
    dfsTop tickets fuel ids black errs0 = some (bl, er) → er = [] →
    ClosedB tickets black →
    (∀ x ∈ black, x ∈ bl) ∧ ClosedB tickets bl ∧ (∀ t ∈ ids, t ∈ bl) ∧
    (∀ x ∈ bl, x ∉ black → ¬ depReach tickets x x) := by
  intro ids
  induction ids with
  | nil =>
    intro black errs0 bl er h her hc
    unfold dfsTop at h
    cases h
    exact ⟨fun x hx => hx, hc, by simp, fun x hx hxb => absurd hx hxb⟩
  | cons t rest ih =>
    intro black errs0 bl er h her hc
    unfold dfsTop at h
    by_cases h1 : black.contains t = true
    · rw [if_pos h1] at h
      obtain ⟨r1, r2, r3, r4⟩ := ih black errs0 bl er h her hc
      have htb : t ∈ black := by simpa [List.contains, List.elem_eq_mem] using h1
      refine ⟨r1, r2, ?_, r4⟩
      intro t2 ht2
      rcases List.mem_cons.mp ht2 with htt | htr
      · exact htt ▸ r1 t htb
      · exact r3 t2 htr
    · rw [if_neg h1] at h
      cases hv : dfsVisit tickets fuel t [] black with
      | none => rw [hv] at h; cases h
      | some pr =>
        obtain ⟨bl2, er2⟩ := pr
        rw [hv] at h
        have her2 : er2 = [] := by
          obtain ⟨tail, ht⟩ := dfsTop_errs_pfx tickets fuel rest bl2 (errs0 ++ er2)
            bl er h
          rw [her] at ht
          have := List.append_eq_nil.mp ht.symm
          exact (List.append_eq_nil.mp this.1).2
        have htb : t ∉ black := by simpa [List.contains, List.elem_eq_mem] using h1
        obtain ⟨s1, s2, s3, s4, s5⟩ := dfsVisit_mega tickets fuel t [] black bl2 er2
          hv her2 hc htb (by simp) (by simp)
        subst her2
        obtain ⟨r1, r2, r3, r4⟩ := ih bl2 (errs0 ++ []) bl er h her s3
        refine ⟨fun x hx => r1 x (s1 x hx), r2, ?_, ?_⟩
        · intro t2 ht2
          rcases List.mem_cons.mp ht2 with htt | htr
          · exact htt ▸ r1 t s2
          · exact r3 t2 htr
        · intro x hx hxb
          by_cases hxbl2 : x ∈ bl2
          · exact s4 x hxbl2 hxb x (Or.inr rfl)
          · exact r4 x hx hxbl2

set_option maxRecDepth 10000 in
/-- C4 counterexample: `multiCycleTickets` contains the dependency cycle
TSK-0001 → TSK-0002 → TSK-0003 → TSK-0001, and the validator rejects the set,
but the depth-first scan enters the overlapping cycle through TSK-0004 first
and reports only that path, so no error entry references all three member ids
of the claimed cycle. -/
theorem multi_cycle_error_misses_members :
    depEdge multiCycleTickets "TSK-0001" "TSK-0002" ∧
    depEdge multiCycleTickets "TSK-0002" "TSK-0003" ∧
    depEdge multiCycleTickets "TSK-0003" "TSK-0001" ∧
    (validateRelationships multiCycleTickets).valid = false ∧
    ∀ e ∈ (validateRelationships multiCycleTickets).errors,
      ¬(mentionsId e "TSK-0001" = true ∧ mentionsId e "TSK-0002" = true ∧
        mentionsId e "TSK-0003" = true) := by
  refine ⟨?_, ?_, ?_, ?_, ?_⟩
  · unfold depEdge
    decide
  · unfold depEdge
    decide
  · unfold depEdge
    decide
  · decide
  · decide

set_option maxRecDepth 10000 in
/-- C4 amended: the relationship validator accepts every ticket set with
pairwise-distinct ids, no dangling references and an acyclic dependencies
graph; it rejects every ticket set containing a dependency cycle A→B→C→A;
and when the dependency edges are exactly such a cycle (the three-ticket
single-cycle set) the reported cycle error references all three member ids.
In general the scan reports at least one back-edge error per run but the
reported path need not mention every member of every cycle. -/
theorem validate_relationships_amended :
    (∀ tickets : List RTicket,
      (tickets.map fun t => t.rid).Nodup →
      (∀ t ∈ tickets, ∀ fr ∈ refFields t, ∀ r ∈ fr.2,
        r ∈ tickets.map fun t2 => t2.rid) →
      (∀ v, ¬ depReach tickets v v) →
      (validateRelationships tickets).valid = true) ∧
    (∀ (tickets : List RTicket) (a b c : String),
      depEdge tickets a b → depEdge tickets b c → depEdge tickets c a →
      (validateRelationships tickets).valid = false) ∧
    ((validateRelationships pureCycleTickets).valid = false ∧
      ∃ e ∈ (validateRelationships pureCycleTickets).errors,
        mentionsId e "TSK-0001" = true ∧ mentionsId e "TSK-0002" = true ∧
        mentionsId e "TSK-0003" = true) := by
  refine ⟨?_, ?_, ?_⟩
  · intro tickets hnodup hrefs hacyc
    have hidsU : ∀ t ∈ tickets.map (fun t => t.rid), t ∈ depUniverse tickets :=
      fun t ht => List.mem_append_left _ ht
    have hsome := dfsTop_some tickets ((depUniverse tickets).length + 1)
      (by omega) (tickets.map fun t => t.rid) hidsU [] []
    unfold validateRelationships
    cases hr : cycleScan tickets with
    | none => unfold cycleScan at hr; rw [hr] at hsome; cases hsome
    | some pr =>
      obtain ⟨blr, cycleErrs⟩ := pr
      unfold cycleScan at hr
      have hcyc0 : cycleErrs = [] := by
        rcases dfsTop_sound tickets ((depUniverse tickets).length + 1)
          (tickets.map fun t => t.rid) [] [] blr cycleErrs hr with he | ⟨x, hx⟩
        · exact he
        · exact absurd hx (hacyc x)
      have hdup : dupErrsOf tickets = [] := by
        unfold dupErrsOf
        have hf : ((tickets.map fun t => t.rid).filter
            fun i => 2 ≤ (tickets.map fun t => t.rid).count i) = [] := by
          rw [List.filter_eq_nil_iff]
          intro i _
          have := List.nodup_iff_count_le_one.mp hnodup i
          simp only [decide_eq_true_eq]
          omega
        rw [hf]
        rfl
      have hdang : danglingErrsOf tickets = [] := by
        unfold danglingErrsOf
        rw [List.flatMap_eq_nil_iff]
        intro t ht
        rw [List.flatMap_eq_nil_iff]
        intro fr hfr
        rw [List.map_eq_nil_iff, List.filter_eq_nil_iff]
        intro r hr2
        have := hrefs t ht fr hfr r hr2
        simp [List.contains, List.elem_eq_mem, this]
      simp only [hdup, hdang, hcyc0]
      rfl
  · intro tickets a b c hab hbc hca
    have hcycle : depReach tickets a a :=
      Relation.TransGen.tail (Relation.TransGen.tail (Relation.TransGen.single hab) hbc) hca
    unfold validateRelationships
    cases hr : cycleScan tickets with
    | none => rfl
    | some pr =>
      obtain ⟨blr, cycleErrs⟩ := pr
      unfold cycleScan at hr
      have hcne : cycleErrs ≠ [] := by
        intro hnil
        subst hnil
        obtain ⟨-, -, r3, r4⟩ := dfsTop_mega tickets ((depUniverse tickets).length + 1)
          (tickets.map fun t => t.rid) [] [] blr [] hr rfl
          (fun x hx => absurd hx (List.not_mem_nil x))
        have ha : a ∈ tickets.map (fun t => t.rid) := edge_src_mem tickets a b hab
        exact r4 a (r3 a ha) (List.not_mem_nil a) hcycle
      show (dupErrsOf tickets ++ danglingErrsOf tickets ++ cycleErrs).isEmpty = false
      cases hl : dupErrsOf tickets ++ danglingErrsOf tickets ++ cycleErrs with
      | nil => exact absurd (List.append_eq_nil.mp hl).2 hcne
      | cons x xs => rfl
  · constructor
    · decide
    · decide

set_option maxRecDepth 10000 in
/-- C4 amended, witnessed: the acyclic three-ticket chain of the spec
scenario validates, and a concrete set with the cycle
TSK-0001 → TSK-0002 → TSK-0003 → TSK-0001 is rejected. -/
theorem validate_relationships_amended_witness :
    (validateRelationships chainTickets).valid = true ∧
    (validateRelationships pureCycleTickets).valid = false := by
  constructor
  · refine (validate_relationships_amended.1) chainTickets (by decide) (by decide) ?_
    have hrank : ∀ u w, depEdge chainTickets u w →
        (if w = "TSK-0001" then 1 else if w = "TSK-0002" then 2 else 3) <
        (if u = "TSK-0001" then 1 else if u = "TSK-0002" then 2 else 3) := by
      intro u w h
      unfold depEdge depsOf at h
      cases hf : chainTickets.find? (fun t => t.rid = u) with
      | none => rw [hf] at h; cases h
      | some t =>
        rw [hf] at h
        have hmem := List.mem_of_find?_eq_some hf
        have hrid : t.rid = u := by simpa using List.find?_some hf
        subst hrid
        fin_cases hmem <;> simp_all [chainTickets]
    have hreach : ∀ u w, depReach chainTickets u w →
        (if w = "TSK-0001" then 1 else if w = "TSK-0002" then 2 else 3) <
        (if u = "TSK-0001" then 1 else if u = "TSK-0002" then 2 else 3) := by
      intro u w h
      induction h with
      | single he => exact hrank _ _ he
      | tail _ he ih => exact lt_trans (hrank _ _ he) ih
    intro v hv
    exact lt_irrefl _ (hreach v v hv)
  · exact (validate_relationships_amended.2.1) pureCycleTickets
      "TSK-0001" "TSK-0002" "TSK-0003" (by unfold depEdge; decide)
      (by unfold depEdge; decide) (by unfold depEdge; decide)

end AiTrackdown
